import Mathlib

/-
  Verification of the lock-free doubly linked queue in src/queue.c and the
  argument parsing of the test programs src/main.c and src/thread_test.c.

  The embedding is a sequential (quiescent) small-step model of the C code:
  memory is an explicit heap of node cells and payload byte buffers with a
  fresh-address allocator, pointers are `Option Nat` (`none` models NULL),
  and the lock-free retry loops become fuel-indexed recursion (a result of
  `none` means the fuel ran out or undefined behaviour was reached; in the
  quiescent states the claims speak about, every compare-and-swap succeeds
  on its first attempt, so fuel 1 suffices).
-/

set_option maxHeartbeats 1000000

namespace LocklessQueue

/-- A node of the doubly linked list (struct Node): address of the owned
payload buffer (`none` = NULL data pointer), payload byte length, atomic
`prev`/`next` pointers, and the per-node spin lock bit. -/
structure Node where
  data : Option Nat
  length : Nat
  prev : Option Nat
  next : Option Nat
  locked : Bool
deriving Repr, DecidableEq

/-- Pointwise update of a store at one address. -/
def writeAt {α : Type} (f : Nat → Option α) (a : Nat) (v : Option α) : Nat → Option α :=
  fun x => if x = a then v else f x

/-- The heap: node cells, payload byte buffers, and a fresh-address counter
modelling the allocator (allocation always succeeds at a fresh address). -/
structure Mem where
  nodes : Nat → Option Node
  bufs : Nat → Option (List Nat)
  nextA : Nat

/-- The empty heap. -/
def Mem.empty : Mem :=
  { nodes := fun _ => none, bufs := fun _ => none, nextA := 0 }

/-- Store a node cell at an address. -/
def Mem.setNode (m : Mem) (a : Nat) (n : Node) : Mem :=
  { m with nodes := writeAt m.nodes a (some n) }

/-- Free a node cell (free(node)). -/
def Mem.freeNode (m : Mem) (a : Nat) : Mem :=
  { m with nodes := writeAt m.nodes a none }

/-- Mutate the node cell at an address, if allocated. -/
def Mem.modifyNode (m : Mem) (a : Nat) (f : Node → Node) : Mem :=
  match m.nodes a with
  | some n => m.setNode a (f n)
  | none => m

/-- Allocate a fresh node cell (malloc(sizeof(Node))). -/
def Mem.allocNode (m : Mem) (n : Node) : Mem × Nat :=
  ({ m with nodes := writeAt m.nodes m.nextA (some n), nextA := m.nextA + 1 }, m.nextA)

/-- Allocate a fresh payload buffer holding the given bytes; this also models
the caller's own malloc of a source buffer. -/
def Mem.allocBuf (m : Mem) (bs : List Nat) : Mem × Nat :=
  ({ m with bufs := writeAt m.bufs m.nextA (some bs), nextA := m.nextA + 1 }, m.nextA)

/-- Overwrite the bytes of an existing buffer (models the caller mutating a
buffer it owns). -/
def Mem.writeBuf (m : Mem) (a : Nat) (bs : List Nat) : Mem :=
  { m with bufs := writeAt m.bufs a (some bs) }

/-- Free a payload buffer (free(data)). -/
def Mem.freeBuf (m : Mem) (a : Nat) : Mem :=
  { m with bufs := writeAt m.bufs a none }

/-- The queue object (struct Queue): addresses of the two sentinel nodes and
the atomic counters. `size` and `max_queue_size` are size_t (64-bit; a wrap
would need 2^64 simultaneously live nodes, impossible in a 2^64-byte address
space, and `size` is only ever decremented when positive in reachable
states), so they are modelled as plain naturals. The four operation counters
are 32-bit atomic_uint, so their increments wrap with an explicit
modulus 2^32 = 4294967296. -/
structure Queue where
  head : Nat
  tail : Nat
  size : Nat
  max_queue_size : Nat
  enqueue_counter : Nat
  dequeue_counter : Nat
  enqueue_retries : Nat
  dequeue_retries : Nat
deriving Repr, DecidableEq

/-- node_create(data, length): allocate a node; when `data` is non-NULL and
`length > 0`, also allocate a buffer and memcpy `length` bytes from the
source buffer into it; otherwise the node carries `data = NULL, length = 0`. -/
def node_create (m : Mem) (data : Option Nat) (length : Nat) : Mem × Nat :=
  match data with
  | some src =>
    if 0 < length then
      let bytes := ((m.bufs src).getD []).take length
      let nodeA := m.nextA
      let bufA := m.nextA + 1
      ({ nodes := writeAt m.nodes nodeA
           (some { data := some bufA, length := length, prev := none, next := none,
                   locked := false }),
         bufs := writeAt m.bufs bufA (some bytes),
         nextA := m.nextA + 2 }, nodeA)
    else
      m.allocNode { data := none, length := 0, prev := none, next := none, locked := false }
  | none =>
      m.allocNode { data := none, length := 0, prev := none, next := none, locked := false }

/-- node_try_lock: CAS the lock bit from false to true. -/
def node_try_lock (m : Mem) (a : Nat) : Mem × Bool :=
  match m.nodes a with
  | none => (m, false)
  | some n =>
    if n.locked then (m, false)
    else (m.setNode a { n with locked := true }, true)

/-- node_unlock: store false to the lock bit. -/
def node_unlock (m : Mem) (a : Nat) : Mem :=
  m.modifyNode a (fun n => { n with locked := false })

/-- node_destroy: if the node is unlocked, free its payload buffer (when
non-NULL) and the cell, returning true; if locked, do nothing and return
false. -/
def node_destroy (m : Mem) (a : Nat) : Mem × Bool :=
  match m.nodes a with
  | none => (m, true)
  | some n =>
    if n.locked then (m, false)
    else
      let m1 := match n.data with
        | some b => m.freeBuf b
        | none => m
      (m1.freeNode a, true)

/-- queue_init: allocate the queue, create the two empty sentinel nodes,
link head.next = tail and tail.prev = head, zero all counters. -/
def queue_init (m : Mem) : Mem × Queue :=
  let r1 := node_create m none 0
  let m1 := r1.1
  let headA := r1.2
  let r2 := node_create m1 none 0
  let m2 := r2.1
  let tailA := r2.2
  let m3 := m2.modifyNode headA (fun n => { n with prev := none, next := some tailA })
  let m4 := m3.modifyNode tailA (fun n => { n with prev := some headA, next := none })
  (m4, { head := headA, tail := tailA, size := 0, max_queue_size := 0,
         enqueue_counter := 0, dequeue_counter := 0,
         enqueue_retries := 0, dequeue_retries := 0 })

/-- The retry loop of queue_enqueue: load P = tail.prev, point the new node
at (P, tail), CAS P.next from tail to the new node; on success refresh
tail.prev, bump size / max_queue_size / enqueue_counter and unlock the new
node; on CAS failure bump enqueue_retries and retry. -/
def queue_enqueue_loop (newA tailA : Nat) : Nat → Mem → Queue → Option (Mem × Queue × Bool)
  | 0, _, _ => none
  | fuel + 1, m, q =>
    match m.nodes tailA with
    | none => none
    | some tn =>
      match tn.prev with
      | none => none
      | some p =>
        let m1 := m.modifyNode newA (fun n => { n with next := some tailA, prev := some p })
        match m1.nodes p with
        | none => none
        | some pn =>
          if pn.next = some tailA then
            let m2 := m1.setNode p { pn with next := some newA }
            let m3 := m2.modifyNode tailA (fun n => { n with prev := some newA })
            let new_size := q.size + 1
            let q1 := { q with
              size := new_size,
              max_queue_size :=
                if new_size > q.max_queue_size then new_size else q.max_queue_size,
              enqueue_counter := (q.enqueue_counter + 1) % 4294967296 }
            let m4 := m3.modifyNode newA (fun n => { n with locked := false })
            some (m4, q1, true)
          else
            queue_enqueue_loop newA tailA fuel m1
              { q with enqueue_retries := (q.enqueue_retries + 1) % 4294967296 }

/-- queue_enqueue: NULL-queue and (NULL data, length > 0) guards, then
node_create, lock the fresh node, and run the insertion loop. A `none`
result means the retry loop ran out of fuel. -/
def queue_enqueue (fuel : Nat) (m : Mem) (qo : Option Queue) (data : Option Nat)
    (length : Nat) : Option (Mem × Option Queue × Bool) :=
  match qo with
  | none => some (m, none, false)
  | some q =>
    if data = none ∧ 0 < length then some (m, some q, false)
    else
      let r := node_create m data length
      let m1 := r.1
      let newA := r.2
      let r2 := node_try_lock m1 newA
      let m2 := r2.1
      if r2.2 then
        match queue_enqueue_loop newA q.tail fuel m2 q with
        | none => none
        | some (m3, q3, b) => some (m3, some q3, b)
      else
        let m3 := match m2.nodes newA with
          | some n =>
            match n.data with
            | some b => m2.freeBuf b
            | none => m2
          | none => m2
        some (m3.freeNode newA, some q, false)

/-- The retry loop of queue_dequeue: load F = head.next; if F is the tail
sentinel report empty; otherwise try-lock F (bumping dequeue_retries and
retrying on failure), load X = F.next, CAS head.next from F to X; on success
hand out (F.data, F.length), fix up the prev pointer of X (or of the tail
sentinel), bump size / dequeue_counter, unlock and free F. The innermost
`Option` of the result is `none` when the queue was observed empty (false
returned, out-parameters untouched). -/
def queue_dequeue_loop (headA tailA : Nat) :
    Nat → Mem → Queue → Option (Mem × Queue × Option (Option Nat × Nat))
  | 0, _, _ => none
  | fuel + 1, m, q =>
    match m.nodes headA with
    | none => none
    | some hn =>
      if hn.next = some tailA then some (m, q, none)
      else
        match hn.next with
        | none =>
          queue_dequeue_loop headA tailA fuel m
            { q with dequeue_retries := (q.dequeue_retries + 1) % 4294967296 }
        | some f =>
          let r := node_try_lock m f
          let m1 := r.1
          if r.2 then
            match m1.nodes f with
            | none => none
            | some fn =>
              let next_node := fn.next
              match m1.nodes headA with
              | none => none
              | some hn1 =>
                if hn1.next = some f then
                  let m2 := m1.setNode headA { hn1 with next := next_node }
                  let out : Option Nat × Nat := (fn.data, fn.length)
                  let m3 :=
                    match next_node with
                    | some x =>
                      if x ≠ tailA then m2.modifyNode x (fun n => { n with prev := some headA })
                      else m2.modifyNode tailA (fun n => { n with prev := some headA })
                    | none => m2
                  let q1 := { q with
                    size := q.size - 1,
                    dequeue_counter := (q.dequeue_counter + 1) % 4294967296 }
                  let m4 := node_unlock m3 f
                  let m5 := m4.freeNode f
                  some (m5, q1, some out)
                else
                  let m2 := node_unlock m1 f
                  queue_dequeue_loop headA tailA fuel m2
                    { q with dequeue_retries := (q.dequeue_retries + 1) % 4294967296 }
          else
            queue_dequeue_loop headA tailA fuel m1
              { q with dequeue_retries := (q.dequeue_retries + 1) % 4294967296 }

/-- queue_dequeue: guard against a NULL queue or NULL out-parameters
(`outDataOk` / `outLenOk` say whether the two out-pointers are non-NULL),
then run the removal loop. Result fields: final heap, final queue, boolean
return value, and `some (dataAddr, len)` exactly when the out-parameters
were written. -/
def queue_dequeue (fuel : Nat) (m : Mem) (qo : Option Queue) (outDataOk outLenOk : Bool) :
    Option (Mem × Option Queue × Bool × Option (Option Nat × Nat)) :=
  match qo with
  | none => some (m, none, false, none)
  | some q =>
    if outDataOk = false ∨ outLenOk = false then some (m, some q, false, none)
    else
      match queue_dequeue_loop q.head q.tail fuel m q with
      | none => none
      | some (m1, q1, r) =>
        match r with
        | none => some (m1, some q1, false, none)
        | some out => some (m1, some q1, true, some out)

/-- queue_is_empty: true for a NULL queue; otherwise true iff head.next is
the tail sentinel and tail.prev is the head sentinel. -/
def queue_is_empty (m : Mem) (qo : Option Queue) : Bool :=
  match qo with
  | none => true
  | some q =>
    let first := (m.nodes q.head).bind Node.next
    let tail_prev := (m.nodes q.tail).bind Node.prev
    decide (first = some q.tail ∧ tail_prev = some q.head)

/-- queue_size: 0 for a NULL queue, else the size counter. -/
def queue_size (qo : Option Queue) : Nat :=
  match qo with
  | none => 0
  | some q => q.size

/-- queue_max_size: 0 for a NULL queue, else the high-water mark. -/
def queue_max_size (qo : Option Queue) : Nat :=
  match qo with
  | none => 0
  | some q => q.max_queue_size

/-- The drain loop of queue_destroy: while the queue is not empty, dequeue
into dummy out-variables. The received payload buffer address is discarded
without being freed. -/
def queue_destroy_loop : Nat → Mem → Queue → Option (Mem × Queue)
  | 0, _, _ => none
  | fuel + 1, m, q =>
    if queue_is_empty m (some q) then some (m, q)
    else
      match queue_dequeue (fuel + 1) m (some q) true true with
      | none => none
      | some (m1, some q1, _, _) => queue_destroy_loop fuel m1 q1
      | some (_, none, _, _) => none

/-- queue_destroy: no-op on NULL; else drain the queue, node_destroy the
head sentinel, node_destroy the tail sentinel when distinct, free the queue
object. -/
def queue_destroy (fuel : Nat) (m : Mem) (qo : Option Queue) : Option Mem :=
  match qo with
  | none => some m
  | some q =>
    match queue_destroy_loop fuel m q with
    | none => none
    | some (m1, q1) =>
      let r1 := node_destroy m1 q1.head
      let m2 := r1.1
      let m3 := if q1.tail ≠ q1.head then (node_destroy m2 q1.tail).1 else m2
      some m3

/-- The bytes a caller observes from a dequeue output: the contents of the
returned buffer, or `[]` for a NULL pointer, paired with the returned
length. -/
def readOut (m : Mem) (out : Option Nat × Nat) : List Nat × Nat :=
  (match out.1 with
   | none => []
   | some b => (m.bufs b).getD [], out.2)

/-- The view of a node cell that the list structure depends on: payload
address, length, next pointer and lock bit (everything except `prev`). -/
def nodeView (m : Mem) (a : Nat) : Option (Option Nat × Nat × Option Nat × Bool) :=
  (m.nodes a).map (fun n => (n.data, n.length, n.next, n.locked))

/-- First element of an address list, defaulting to the tail sentinel. -/
def headOf (ns : List Nat) (tailA : Nat) : Nat :=
  ns.headD tailA

/-- Last element of an address list, defaulting to the head sentinel. -/
def lastOf (headA : Nat) (ns : List Nat) : Nat :=
  ns.getLastD headA

/-- Abstract value carried by a payload node: `(none, 0)` for a node with a
NULL data pointer, or `(some (bufferAddress, bytes), length)`. -/
abbrev AbsVal := Option (Nat × List Nat) × Nat

/-- The byte content and length a caller observes for an abstract value. -/
def absBytes (v : AbsVal) : List Nat × Nat :=
  (match v.1 with
   | none => []
   | some p => p.2, v.2)

/-- The payload buffer addresses owned by a sequence of abstract values. -/
def bufAddrs (vs : List AbsVal) : List Nat :=
  vs.filterMap (fun v => v.1.map Prod.fst)

/-- A node cell realises an abstract value in a given heap. -/
def nodeMatches (m : Mem) (n : Node) : AbsVal → Prop
  | (none, l) => n.data = none ∧ n.length = l ∧ l = 0
  | (some (b, bs), l) =>
      n.data = some b ∧ m.bufs b = some bs ∧ n.length = l ∧ b < m.nextA ∧ 0 < l

/-- The payload nodes at the given addresses form a singly linked chain via
`next`, ending at `tailA`, each unlocked, within the allocated address range,
and realising the corresponding abstract values. -/
def chain (m : Mem) : List Nat → List AbsVal → Nat → Prop
  | [], [], _ => True
  | a :: ns, v :: vs, tailA =>
      (∃ n, m.nodes a = some n ∧ n.locked = false ∧ nodeMatches m n v ∧
        n.next = some (headOf ns tailA) ∧ a < m.nextA) ∧ chain m ns vs tailA
  | _, _, _ => False

/-- The structural invariant of a quiescent queue: both sentinels are
allocated, empty and unlocked, head.next runs through the payload chain `ns`
to the tail sentinel, tail.prev points at the last chain node (or the head
sentinel), all these addresses are distinct, the size counter equals the
chain length, and the owned payload buffer addresses are distinct. -/
structure Inv (m : Mem) (q : Queue) (ns : List Nat) (vs : List AbsVal) : Prop where
  head_lt : q.head < m.nextA
  tail_lt : q.tail < m.nextA
  head_node : ∃ hn, m.nodes q.head = some hn ∧ hn.data = none ∧ hn.length = 0 ∧
    hn.locked = false ∧ hn.next = some (headOf ns q.tail)
  tail_node : ∃ tn, m.nodes q.tail = some tn ∧ tn.data = none ∧ tn.length = 0 ∧
    tn.locked = false ∧ tn.next = none ∧ tn.prev = some (lastOf q.head ns)
  chain_ok : chain m ns vs q.tail
  nodup : (q.head :: q.tail :: ns).Nodup
  size_eq : q.size = ns.length
  bufs_nodup : (bufAddrs vs).Nodup

/-- The abstract value produced by a successful enqueue of `(data, length)`
in heap `m` (the fresh copy is allocated at `m.nextA + 1`). -/
def absEnq (m : Mem) (data : Option Nat) (length : Nat) : AbsVal :=
  match data with
  | some src =>
    if 0 < length then (some (m.nextA + 1, ((m.bufs src).getD []).take length), length)
    else (none, 0)
  | none => (none, 0)

/-- The quiescent states reachable from a freshly initialised queue by any
sequence of caller buffer allocations, enqueues and dequeues. -/
inductive Reach : Mem → Queue → Prop where
  | init (m0 : Mem) : Reach (queue_init m0).1 (queue_init m0).2
  | alloc {m : Mem} {q : Queue} (bs : List Nat) :
      Reach m q → Reach (m.allocBuf bs).1 q
  | enq {m : Mem} {q : Queue} (fuel : Nat) (data : Option Nat) (length : Nat)
      {m' : Mem} {q' : Queue} {b : Bool} : Reach m q →
      queue_enqueue fuel m (some q) data length = some (m', some q', b) → Reach m' q'
  | deq {m : Mem} {q : Queue} (fuel : Nat) (dOk lOk : Bool)
      {m' : Mem} {q' : Queue} {b : Bool} {out : Option (Option Nat × Nat)} : Reach m q →
      queue_dequeue fuel m (some q) dOk lOk = some (m', some q', b, out) → Reach m' q'

/-- A single producer enqueueing the payloads in order: for each payload the
caller mallocs a source buffer, enqueues it with its exact length, and the
run aborts unless the enqueue returns true. -/
def runEnqs (fuel : Nat) : Mem → Queue → List (List Nat) → Option (Mem × Queue)
  | m, q, [] => some (m, q)
  | m, q, w :: ws =>
    let r := m.allocBuf w
    match queue_enqueue fuel r.1 (some q) (some r.2) w.length with
    | some (m', some q', true) => runEnqs fuel m' q' ws
    | _ => none

/-- A single consumer performing `n` dequeues, recording the observed byte
content and length of each; aborts unless every dequeue returns true. -/
def runDeqs (fuel : Nat) : Nat → Mem → Queue → Option (Mem × Queue × List (List Nat × Nat))
  | 0, m, q => some (m, q, [])
  | n + 1, m, q =>
    match queue_dequeue fuel m (some q) true true with
    | some (m', some q', true, some out) =>
      match runDeqs fuel n m' q' with
      | some (m'', q'', acc) => some (m'', q'', readOut m' out :: acc)
      | _ => none
    | _ => none

/-- The order-preservation scenario: enqueue all payloads, dequeue as many,
then attempt one more dequeue; returns the observed sequence and the boolean
result of the extra dequeue. -/
def fifoRun (m : Mem) (q : Queue) (ws : List (List Nat)) :
    Option (List (List Nat × Nat) × Bool) :=
  match runEnqs 1 m q ws with
  | none => none
  | some (m1, q1) =>
    match runDeqs 1 ws.length m1 q1 with
    | none => none
    | some (m2, q2, outs) =>
      match queue_dequeue 1 m2 (some q2) true true with
      | some (_, _, b, _) => some (outs, b)
      | none => none

/-- The round-trip / deep-copy scenario: the caller mallocs buffers holding
`B` and `C` and enqueues both; it then overwrites its own `B` buffer with
`B2`; the first dequeue's observation is recorded; the returned buffer (when
non-NULL) is overwritten with `D2`; the second dequeue's observation is
recorded. -/
def roundTripRun (m : Mem) (q : Queue) (B C B2 D2 : List Nat) :
    Option ((List Nat × Nat) × (List Nat × Nat)) :=
  let rA := m.allocBuf B
  match queue_enqueue 1 rA.1 (some q) (some rA.2) B.length with
  | some (m1, some q1, true) =>
    let rC := m1.allocBuf C
    match queue_enqueue 1 rC.1 (some q1) (some rC.2) C.length with
    | some (m2, some q2, true) =>
      let m2b := m2.writeBuf rA.2 B2
      match queue_dequeue 1 m2b (some q2) true true with
      | some (m3, some q3, true, some out1) =>
        let o1 := readOut m3 out1
        let m3b := match out1.1 with
          | some b => m3.writeBuf b D2
          | none => m3
        match queue_dequeue 1 m3b (some q3) true true with
        | some (m4, _, true, some out2) => some (o1, readOut m4 out2)
        | _ => none
      | _ => none
    | _ => none
  | _ => none

/-- The destroy scenario for the leak check: initialise a queue in an empty
heap, malloc a 1-byte caller buffer holding 42, enqueue it (the queue copies
it to buffer address 4), then call queue_destroy. -/
def destroyLeakResult : Option Mem :=
  let r0 := queue_init Mem.empty
  let rA := r0.1.allocBuf [42]
  match queue_enqueue 1 rA.1 (some r0.2) (some rA.2) 1 with
  | some (m1, some q1, true) => queue_destroy 4 m1 (some q1)
  | _ => none

/-- The state after n successive enqueues of (NULL, 0) starting from a
freshly initialised queue in the empty heap: a family of reachable states
used to drive the 32-bit successful-enqueue counter up to its wrap. -/
def enqN : Nat → Mem × Queue
  | 0 => queue_init Mem.empty
  | n + 1 =>
    match queue_enqueue 1 (enqN n).1 (some (enqN n).2) none 0 with
    | some (mN, some qN, _) => (mN, qN)
    | _ => enqN n

/- ------------------------------------------------------------------ -/
/- Argument parsing of the test programs (src/main.c, src/thread_test.c). -/

/-- Value of a maximal leading digit run (helper for atoi). -/
def digitsVal : List Char → Nat → Nat
  | [], acc => acc
  | c :: cs, acc =>
    if '0' ≤ c ∧ c ≤ '9' then digitsVal cs (acc * 10 + (c.toNat - '0'.toNat))
    else acc

/-- C atoi: skip leading whitespace, optional sign, value of the leading
digit run (0 when there are no digits). -/
def atoi (s : String) : Int :=
  let cs := s.toList.dropWhile Char.isWhitespace
  match cs with
  | '-' :: rest => -(digitsVal rest 0 : Int)
  | '+' :: rest => (digitsVal rest 0 : Int)
  | rest => (digitsVal rest 0 : Int)

/-- Whether an argument is one of the recognised help requests. -/
def isHelpArg (s : String) : Bool :=
  s = "?" ∨ s = "help" ∨ s = "-h" ∨ s = "--help"

/-- Outcome of argument parsing in src/main.c's main: help text (exit 0),
invalid arguments (exit 1), or run with (num_threads, items_per_thread,
mutex_timeout_sec). -/
inductive ParseResult where
  | help : ParseResult
  | error : ParseResult
  | run : Int → Int → Int → ParseResult
deriving Repr, DecidableEq

/-- Outcome of argument parsing in src/thread_test.c's main: help text,
invalid arguments, or run with (num_threads, num_elements). -/
inductive TTParseResult where
  | help : TTParseResult
  | error : TTParseResult
  | run : Int → Int → TTParseResult
deriving Repr, DecidableEq

/-- Argument handling of src/main.c (argument list = argv without the
program name): help tokens first; defaults 10, 100, 30; each provided count
must be positive; more than three positional arguments are rejected. -/
def main_parse : List String → ParseResult
  | [] => .run 10 100 30
  | a1 :: rest =>
    if isHelpArg a1 then .help
    else
      let num_threads := atoi a1
      if num_threads ≤ 0 then .error
      else match rest with
        | [] => .run num_threads 100 30
        | a2 :: rest2 =>
          let items_per_thread := atoi a2
          if items_per_thread ≤ 0 then .error
          else match rest2 with
            | [] => .run num_threads items_per_thread 30
            | a3 :: rest3 =>
              let mutex_timeout_sec := atoi a3
              if mutex_timeout_sec ≤ 0 then .error
              else if rest3 ≠ [] then .error
              else .run num_threads items_per_thread mutex_timeout_sec

/-- Argument handling of src/thread_test.c (argument list = argv without
the program name): help tokens first; defaults 5, 50; each provided count
must be positive; more than two positional arguments are rejected. -/
def thread_test_parse : List String → TTParseResult
  | [] => .run 5 50
  | a1 :: rest =>
    if isHelpArg a1 then .help
    else
      let num_threads := atoi a1
      if num_threads ≤ 0 then .error
      else match rest with
        | [] => .run num_threads 50
        | a2 :: rest2 =>
          let num_elements := atoi a2
          if num_elements ≤ 0 then .error
          else if rest2 ≠ [] then .error
          else .run num_threads num_elements

/- ------------------------------------------------------------------ -/
/- Store accessor lemmas. -/

@[simp]
theorem writeAt_same {α : Type} (f : Nat → Option α) (a : Nat) (v : Option α) :
    writeAt f a v a = v := by
  simp [writeAt]

theorem writeAt_other {α : Type} (f : Nat → Option α) (a : Nat) (v : Option α)
    {x : Nat} (h : x ≠ a) : writeAt f a v x = f x := by
  simp [writeAt, h]

@[simp]
theorem setNode_nodes_same (m : Mem) (a : Nat) (n : Node) :
    (m.setNode a n).nodes a = some n := by
  simp [Mem.setNode]

theorem setNode_nodes_other (m : Mem) (a : Nat) (n : Node) {x : Nat} (h : x ≠ a) :
    (m.setNode a n).nodes x = m.nodes x := by
  simp [Mem.setNode, writeAt, h]

@[simp]
theorem setNode_bufs (m : Mem) (a : Nat) (n : Node) : (m.setNode a n).bufs = m.bufs := rfl

@[simp]
theorem setNode_nextA (m : Mem) (a : Nat) (n : Node) : (m.setNode a n).nextA = m.nextA := rfl

@[simp]
theorem freeNode_nodes_same (m : Mem) (a : Nat) : (m.freeNode a).nodes a = none := by
  simp [Mem.freeNode]

theorem freeNode_nodes_other (m : Mem) (a : Nat) {x : Nat} (h : x ≠ a) :
    (m.freeNode a).nodes x = m.nodes x := by
  simp [Mem.freeNode, writeAt, h]

@[simp]
theorem freeNode_bufs (m : Mem) (a : Nat) : (m.freeNode a).bufs = m.bufs := rfl

@[simp]
theorem freeNode_nextA (m : Mem) (a : Nat) : (m.freeNode a).nextA = m.nextA := rfl

theorem modifyNode_nodes_same {m : Mem} {a : Nat} {n : Node} (h : m.nodes a = some n)
    (f : Node → Node) : (m.modifyNode a f).nodes a = some (f n) := by
  simp [Mem.modifyNode, h]

theorem modifyNode_nodes_other {m : Mem} (a : Nat) (f : Node → Node) {x : Nat} (h : x ≠ a) :
    (m.modifyNode a f).nodes x = m.nodes x := by
  unfold Mem.modifyNode
  cases m.nodes a with
  | none => rfl
  | some n => simp [Mem.setNode, writeAt, h]

@[simp]
theorem modifyNode_bufs (m : Mem) (a : Nat) (f : Node → Node) :
    (m.modifyNode a f).bufs = m.bufs := by
  unfold Mem.modifyNode
  cases m.nodes a with
  | none => rfl
  | some n => rfl

@[simp]
theorem modifyNode_nextA (m : Mem) (a : Nat) (f : Node → Node) :
    (m.modifyNode a f).nextA = m.nextA := by
  unfold Mem.modifyNode
  cases m.nodes a with
  | none => rfl
  | some n => rfl

@[simp]
theorem allocBuf_bufs_same (m : Mem) (bs : List Nat) :
    (m.allocBuf bs).1.bufs (m.allocBuf bs).2 = some bs := by
  simp [Mem.allocBuf]

theorem allocBuf_bufs_other (m : Mem) (bs : List Nat) {x : Nat} (h : x ≠ m.nextA) :
    (m.allocBuf bs).1.bufs x = m.bufs x := by
  simp [Mem.allocBuf, writeAt, h]

@[simp]
theorem allocBuf_nodes (m : Mem) (bs : List Nat) : (m.allocBuf bs).1.nodes = m.nodes := rfl

@[simp]
theorem allocBuf_nextA (m : Mem) (bs : List Nat) :
    (m.allocBuf bs).1.nextA = m.nextA + 1 := rfl

@[simp]
theorem allocBuf_addr (m : Mem) (bs : List Nat) : (m.allocBuf bs).2 = m.nextA := rfl

@[simp]
theorem writeBuf_bufs_same (m : Mem) (a : Nat) (bs : List Nat) :
    (m.writeBuf a bs).bufs a = some bs := by
  simp [Mem.writeBuf]

theorem writeBuf_bufs_other (m : Mem) (a : Nat) (bs : List Nat) {x : Nat} (h : x ≠ a) :
    (m.writeBuf a bs).bufs x = m.bufs x := by
  simp [Mem.writeBuf, writeAt, h]

@[simp]
theorem writeBuf_nodes (m : Mem) (a : Nat) (bs : List Nat) :
    (m.writeBuf a bs).nodes = m.nodes := rfl

@[simp]
theorem writeBuf_nextA (m : Mem) (a : Nat) (bs : List Nat) :
    (m.writeBuf a bs).nextA = m.nextA := rfl

/- ------------------------------------------------------------------ -/
/- Chain and invariant basics. -/

theorem nodeMatches_mono {m m' : Mem} {n : Node} {v : AbsVal} (h : nodeMatches m n v)
    (hbufs : ∀ b, b < m.nextA → m'.bufs b = m.bufs b) (hA : m.nextA ≤ m'.nextA) :
    nodeMatches m' n v := by
  match v with
  | (none, l) => exact h
  | (some (b, bs), l) =>
    obtain ⟨h1, h2, h3, h4, h5⟩ := h
    exact ⟨h1, by rw [hbufs b h4]; exact h2, h3, lt_of_lt_of_le h4 hA, h5⟩

theorem nodeMatches_congr {m : Mem} {n n' : Node} {v : AbsVal}
    (hd : n'.data = n.data) (hl : n'.length = n.length) (h : nodeMatches m n v) :
    nodeMatches m n' v := by
  match v with
  | (none, l) =>
    obtain ⟨h1, h2, h3⟩ := h
    exact ⟨hd.trans h1, hl.trans h2, h3⟩
  | (some (b, bs), l) =>
    obtain ⟨h1, h2, h3, h4, h5⟩ := h
    exact ⟨hd.trans h1, h2, hl.trans h3, h4, h5⟩

theorem chain_length {m : Mem} {tailA : Nat} :
    ∀ {ns : List Nat} {vs : List AbsVal}, chain m ns vs tailA → ns.length = vs.length := by
  intro ns
  induction ns with
  | nil => intro vs h; cases vs with
    | nil => rfl
    | cons v vs => exact absurd h (by simp [chain])
  | cons a ns ih =>
    intro vs h
    cases vs with
    | nil => exact absurd h (by simp [chain])
    | cons v vs => simpa using ih h.2

theorem chain_mono {m m' : Mem} {tailA : Nat} :
    ∀ {ns : List Nat} {vs : List AbsVal}, chain m ns vs tailA →
      (∀ a ∈ ns, nodeView m' a = nodeView m a) →
      (∀ b, b < m.nextA → m'.bufs b = m.bufs b) →
      m.nextA ≤ m'.nextA → chain m' ns vs tailA := by
  intro ns
  induction ns with
  | nil =>
    intro vs h hview hbufs hA
    cases vs with
    | nil => trivial
    | cons v vs => exact absurd h (by simp [chain])
  | cons a ns ih =>
    intro vs h hview hbufs hA
    cases vs with
    | nil => exact absurd h (by simp [chain])
    | cons v vs =>
      obtain ⟨⟨n, hn, hlock, hmatch, hnext, hlt⟩, hrest⟩ := h
      have hv := hview a (by simp)
      simp only [nodeView, hn, Option.map_some'] at hv
      match hmn : m'.nodes a with
      | none => rw [hmn] at hv; simp at hv
      | some n' =>
        rw [hmn] at hv
        simp only [Option.map_some'] at hv
        have hv' : (n'.data, n'.length, n'.next, n'.locked) =
            (n.data, n.length, n.next, n.locked) := Option.some.inj hv
        have hd : n'.data = n.data := congrArg (fun p => p.1) hv'
        have hl : n'.length = n.length := congrArg (fun p => p.2.1) hv'
        have hnx : n'.next = n.next := congrArg (fun p => p.2.2.1) hv'
        have hlk : n'.locked = n.locked := congrArg (fun p => p.2.2.2) hv'
        refine ⟨⟨n', hmn, hlk.trans hlock, ?_, hnx.trans hnext, lt_of_lt_of_le hlt hA⟩, ?_⟩
        · exact nodeMatches_mono (nodeMatches_congr hd hl hmatch) hbufs hA
        · exact ih hrest (fun x hx => hview x (by simp [hx])) hbufs hA

theorem chain_last {m : Mem} {tailA : Nat} :
    ∀ {ns : List Nat} {vs : List AbsVal} {p : Nat}, chain m ns vs tailA →
      ns.getLast? = some p → ∃ n, m.nodes p = some n ∧ n.next = some tailA := by
  intro ns
  induction ns with
  | nil => intro vs p h hl; simp at hl
  | cons a ns ih =>
    intro vs p h hl
    cases vs with
    | nil => exact absurd h (by simp [chain])
    | cons v vs =>
      obtain ⟨⟨n, hn, _, _, hnext, _⟩, hrest⟩ := h
      cases ns with
      | nil =>
        have hpa : p = a := by simpa using hl.symm
        subst hpa
        exact ⟨n, hn, by simpa [headOf] using hnext⟩
      | cons b ns' =>
        exact ih hrest (by simpa [List.getLast?_cons_cons] using hl)

theorem chain_snoc {m m4 : Mem} {tailA newA p : Nat} {v : AbsVal} {nn : Node}
    (hnewNode : m4.nodes newA = some nn) (hnnlock : nn.locked = false)
    (hnnnext : nn.next = some tailA) (hnnmatch : nodeMatches m4 nn v)
    (hbufs : ∀ b, b < m.nextA → m4.bufs b = m.bufs b)
    (hA : m.nextA ≤ m4.nextA) (hnewlt : newA < m4.nextA)
    (hp : ∀ n, m.nodes p = some n → m4.nodes p = some { n with next := some newA }) :
    ∀ {ns : List Nat} {vs : List AbsVal}, chain m ns vs tailA → ns.Nodup →
      (ns ≠ [] → ns.getLast? = some p) →
      (∀ a ∈ ns, a ≠ p → nodeView m4 a = nodeView m a) →
      chain m4 (ns ++ [newA]) (vs ++ [v]) tailA := by
  intro ns
  induction ns with
  | nil =>
    intro vs h _ _ _
    cases vs with
    | nil =>
      exact ⟨⟨nn, hnewNode, hnnlock, hnnmatch, by simpa [headOf] using hnnnext, hnewlt⟩,
        trivial⟩
    | cons v vs => exact absurd h (by simp [chain])
  | cons a ns ih =>
    intro vs h hnd hlast hother
    cases vs with
    | nil => exact absurd h (by simp [chain])
    | cons w vs =>
      obtain ⟨⟨n, hn, hlock, hmatch, hnext, hlt⟩, hrest⟩ := h
      cases ns with
      | nil =>
        cases vs with
        | cons w' vs' => exact absurd hrest (by simp [chain])
        | nil =>
          have hpa : p = a := by simpa using (hlast (by simp)).symm
          subst hpa
          have hm4p := hp n hn
          refine ⟨⟨_, hm4p, hlock, ?_, ?_, lt_of_lt_of_le hlt hA⟩,
            ⟨nn, hnewNode, hnnlock, hnnmatch, by simpa [headOf] using hnnnext, hnewlt⟩,
            trivial⟩
          · exact nodeMatches_mono (nodeMatches_congr rfl rfl hmatch) hbufs hA
          · simp [headOf]
      | cons b ns' =>
        have hap : a ≠ p := by
          have hpmem : p ∈ b :: ns' := by
            have hl := hlast (by simp)
            rw [List.getLast?_cons_cons] at hl
            obtain ⟨hne, hEq⟩ :=
              List.mem_getLast?_eq_getLast (show p ∈ (b :: ns').getLast? by simp [hl])
            exact hEq ▸ List.getLast_mem hne
          have hanotin : a ∉ b :: ns' := (List.nodup_cons.mp hnd).1
          intro hEq
          exact hanotin (hEq ▸ hpmem)
        have hv := hother a (by simp) hap
        simp only [nodeView, hn, Option.map_some'] at hv
        match hmn : m4.nodes a with
        | none => rw [hmn] at hv; simp at hv
        | some n' =>
          rw [hmn] at hv
          simp only [Option.map_some'] at hv
          have hv' : (n'.data, n'.length, n'.next, n'.locked) =
              (n.data, n.length, n.next, n.locked) := Option.some.inj hv
          have hd : n'.data = n.data := congrArg (fun x => x.1) hv'
          have hl : n'.length = n.length := congrArg (fun x => x.2.1) hv'
          have hnx : n'.next = n.next := congrArg (fun x => x.2.2.1) hv'
          have hlk : n'.locked = n.locked := congrArg (fun x => x.2.2.2) hv'
          refine ⟨⟨n', hmn, hlk.trans hlock, ?_, ?_, lt_of_lt_of_le hlt hA⟩, ?_⟩
          · exact nodeMatches_mono (nodeMatches_congr hd hl hmatch) hbufs hA
          · rw [hnx, hnext]; simp [headOf]
          · exact ih hrest (List.nodup_cons.mp hnd).2
              (fun _ => by simpa [List.getLast?_cons_cons] using hlast (by simp))
              (fun x hx hxp => hother x (by simp [hx]) hxp)

theorem bufAddrs_append (vs ws : List AbsVal) :
    bufAddrs (vs ++ ws) = bufAddrs vs ++ bufAddrs ws := by
  simp [bufAddrs]

theorem chain_bufAddrs_lt {m : Mem} {tailA : Nat} :
    ∀ {ns : List Nat} {vs : List AbsVal}, chain m ns vs tailA →
      ∀ b ∈ bufAddrs vs, b < m.nextA := by
  intro ns
  induction ns with
  | nil =>
    intro vs h b hb
    cases vs with
    | nil => simp [bufAddrs] at hb
    | cons v vs => exact absurd h (by simp [chain])
  | cons a ns ih =>
    intro vs h b hb
    cases vs with
    | nil => exact absurd h (by simp [chain])
    | cons v vs =>
      obtain ⟨⟨n, hn, hlock, hmatch, hnext, hlt⟩, hrest⟩ := h
      match v, hmatch with
      | (none, l), _ =>
        exact ih hrest b (by simpa [bufAddrs] using hb)
      | (some (b', bs), l), ⟨h1, h2, h3, h4, h5⟩ =>
        rcases (by simpa [bufAddrs] using hb : b = b' ∨ b ∈ bufAddrs vs) with hEq | hmem
        · exact hEq ▸ h4
        · exact ih hrest b hmem

theorem chain_writeBuf {m : Mem} {tailA a : Nat} {bs2 : List Nat} :
    ∀ {ns : List Nat} {vs : List AbsVal}, chain m ns vs tailA → a ∉ bufAddrs vs →
      chain (m.writeBuf a bs2) ns vs tailA := by
  intro ns
  induction ns with
  | nil =>
    intro vs h _
    cases vs with
    | nil => trivial
    | cons v vs => exact absurd h (by simp [chain])
  | cons x ns ih =>
    intro vs h hna
    cases vs with
    | nil => exact absurd h (by simp [chain])
    | cons v vs =>
      obtain ⟨⟨n, hn, hlock, hmatch, hnext, hlt⟩, hrest⟩ := h
      refine ⟨⟨n, by simpa using hn, hlock, ?_, hnext, by simpa using hlt⟩, ?_⟩
      · match v, hmatch with
        | (none, l), hm => exact hm
        | (some (b', bs), l), ⟨h1, h2, h3, h4, h5⟩ =>
          have hba : b' ≠ a := by
            intro hEq
            exact hna (by simp [bufAddrs, ← hEq])
          refine ⟨h1, ?_, h3, by simpa using h4, h5⟩
          rw [writeBuf_bufs_other _ _ _ hba]
          exact h2
      · refine ih hrest ?_
        intro hmem
        match v with
        | (none, l) => exact hna (by simpa [bufAddrs] using hmem)
        | (some (b', bs), l) => exact hna (by simp [bufAddrs]; right; simpa [bufAddrs] using hmem)

theorem Inv_allocBuf {m : Mem} {q : Queue} {ns : List Nat} {vs : List AbsVal}
    (h : Inv m q ns vs) (bs : List Nat) : Inv (m.allocBuf bs).1 q ns vs := by
  obtain ⟨hlt, tlt, ⟨hn, hhn, hh1, hh2, hh3, hh4⟩, ⟨tn, htn, ht1, ht2, ht3, ht4, ht5⟩,
    hchain, hnd, hsz, hbnd⟩ := h
  refine ⟨by simpa using Nat.lt_succ_of_lt hlt, by simpa using Nat.lt_succ_of_lt tlt,
    ⟨hn, by simpa using hhn, hh1, hh2, hh3, hh4⟩,
    ⟨tn, by simpa using htn, ht1, ht2, ht3, ht4, ht5⟩, ?_, hnd, hsz, hbnd⟩
  refine chain_mono hchain (fun a _ => by simp [nodeView]) ?_ (by simp)
  intro b hb
  exact allocBuf_bufs_other m bs (Nat.ne_of_lt hb)

theorem Inv_writeBuf {m : Mem} {q : Queue} {ns : List Nat} {vs : List AbsVal}
    (h : Inv m q ns vs) {a : Nat} (ha : a ∉ bufAddrs vs) (bs2 : List Nat) :
    Inv (m.writeBuf a bs2) q ns vs := by
  obtain ⟨hlt, tlt, ⟨hn, hhn, hh1, hh2, hh3, hh4⟩, ⟨tn, htn, ht1, ht2, ht3, ht4, ht5⟩,
    hchain, hnd, hsz, hbnd⟩ := h
  exact ⟨by simpa using hlt, by simpa using tlt,
    ⟨hn, by simpa using hhn, hh1, hh2, hh3, hh4⟩,
    ⟨tn, by simpa using htn, ht1, ht2, ht3, ht4, ht5⟩,
    chain_writeBuf hchain ha, hnd, hsz, hbnd⟩

theorem nodeMatches_ext {m m' : Mem} {n : Node} {v : AbsVal} (hb : m'.bufs = m.bufs)
    (hA : m'.nextA = m.nextA) (h : nodeMatches m n v) : nodeMatches m' n v := by
  match v with
  | (none, l) => exact h
  | (some (b, bs), l) =>
    obtain ⟨h1, h2, h3, h4, h5⟩ := h
    exact ⟨h1, by rw [hb]; exact h2, h3, by rw [hA]; exact h4, h5⟩

theorem chain_addrs_lt {m : Mem} {tailA : Nat} :
    ∀ {ns : List Nat} {vs : List AbsVal}, chain m ns vs tailA → ∀ a ∈ ns, a < m.nextA := by
  intro ns
  induction ns with
  | nil => intro vs _ a ha; simp at ha
  | cons x ns ih =>
    intro vs h a ha
    cases vs with
    | nil => exact absurd h (by simp [chain])
    | cons v vs =>
      obtain ⟨⟨n, _, _, _, _, hlt⟩, hrest⟩ := h
      rcases List.mem_cons.mp ha with hEq | hmem
      · exact hEq ▸ hlt
      · exact ih hrest a hmem

/-- One successful iteration of the enqueue retry loop, spelled out. -/
theorem queue_enqueue_loop_succ {m : Mem} {q : Queue} {newA tailA p : Nat}
    {tn pn : Node} (fuel : Nat) (h1 : m.nodes tailA = some tn) (h2 : tn.prev = some p)
    (h3 : (m.modifyNode newA
      (fun n => { n with next := some tailA, prev := some p })).nodes p = some pn)
    (h4 : pn.next = some tailA) :
    queue_enqueue_loop newA tailA (fuel + 1) m q =
      (let m1 := m.modifyNode newA (fun n => { n with next := some tailA, prev := some p });
       let m2 := m1.setNode p { pn with next := some newA };
       let m3 := m2.modifyNode tailA (fun n => { n with prev := some newA });
       let m4 := m3.modifyNode newA (fun n => { n with locked := false });
       some (m4,
        { q with
          size := q.size + 1,
          max_queue_size :=
            if q.size + 1 > q.max_queue_size then q.size + 1 else q.max_queue_size,
          enqueue_counter := (q.enqueue_counter + 1) % 4294967296 }, true)) := by
  simp only [queue_enqueue_loop, h1, h2, h3, h4]
  simp

/-- One iteration of the dequeue retry loop observing an empty queue. -/
theorem queue_dequeue_loop_empty {m : Mem} {q : Queue} {headA tailA : Nat} {hn : Node}
    (fuel : Nat) (h1 : m.nodes headA = some hn) (h2 : hn.next = some tailA) :
    queue_dequeue_loop headA tailA (fuel + 1) m q = some (m, q, none) := by
  simp only [queue_dequeue_loop, h1, h2]
  simp

/-- One successful iteration of the dequeue retry loop, spelled out. -/
theorem queue_dequeue_loop_succ {m : Mem} {q : Queue} {headA tailA f : Nat}
    {hn fn0 : Node} (fuel : Nat) (h1 : m.nodes headA = some hn) (h2 : hn.next = some f)
    (hne : f ≠ tailA) (h3 : m.nodes f = some fn0) (h4 : fn0.locked = false)
    (h5 : headA ≠ f) :
    queue_dequeue_loop headA tailA (fuel + 1) m q =
      (let m2 := ((m.setNode f { fn0 with locked := true }).setNode
                    headA { hn with next := fn0.next });
       let m3 := match fn0.next with
         | some x =>
           if x ≠ tailA then m2.modifyNode x (fun n => { n with prev := some headA })
           else m2.modifyNode tailA (fun n => { n with prev := some headA })
         | none => m2;
       some ((node_unlock m3 f).freeNode f,
        { q with size := q.size - 1, dequeue_counter := (q.dequeue_counter + 1) % 4294967296 },
        some (fn0.data, fn0.length))) := by
  have hcond : hn.next ≠ some tailA := by
    rw [h2]
    intro hEq
    exact hne (Option.some.inj hEq)
  have hlock : node_try_lock m f = (m.setNode f { fn0 with locked := true }, true) := by
    simp [node_try_lock, h3, h4]
  have hfn : (m.setNode f { fn0 with locked := true }).nodes f =
      some { fn0 with locked := true } := setNode_nodes_same _ _ _
  have hhn1 : (m.setNode f { fn0 with locked := true }).nodes headA = some hn := by
    rw [setNode_nodes_other _ _ _ h5]
    exact h1
  simp only [queue_dequeue_loop, h1, if_neg hcond, h2, hlock, hfn, hhn1, if_pos h2]
  simp [hne]

theorem headOf_append_of_ne_nil {ns : List Nat} (x tailA : Nat) (h : ns ≠ []) :
    headOf (ns ++ [x]) tailA = headOf ns tailA := by
  cases ns with
  | nil => exact absurd rfl h
  | cons a t => rfl

theorem lastOf_append (h0 x : Nat) (ns : List Nat) : lastOf h0 (ns ++ [x]) = x := by
  simp [lastOf]

theorem nodup_append_singleton {l : List Nat} {x : Nat} (h : l.Nodup) (hx : x ∉ l) :
    (l ++ [x]).Nodup := by
  simp [List.nodup_append, h, hx]

theorem absEnq_buf {m : Mem} {data : Option Nat} {length : Nat} {b : Nat} {bs : List Nat}
    {l : Nat} (h : absEnq m data length = (some (b, bs), l)) : b = m.nextA + 1 := by
  rcases data with _ | src
  · simp [absEnq] at h
  · by_cases hlen : 0 < length
    · simp [absEnq, hlen] at h
      exact h.1.1.symm
    · simp [absEnq, hlen] at h

/-- A successful enqueue from a quiescent state: the call returns true, the
new node (allocated at `m.nextA`) is appended to the chain carrying
`absEnq m data length`, size and enqueue_counter are bumped, max_queue_size
is raised to the new size when exceeded, and all previously allocated
buffers are untouched. -/
theorem enqueue_step {m : Mem} {q : Queue} {ns : List Nat} {vs : List AbsVal}
    (inv : Inv m q ns vs) (data : Option Nat) (length : Nat)
    (hvalid : ¬(data = none ∧ 0 < length)) (fuel : Nat) :
    ∃ m' : Mem,
      queue_enqueue (fuel + 1) m (some q) data length =
        some (m', some { q with
          size := q.size + 1,
          max_queue_size :=
            if q.size + 1 > q.max_queue_size then q.size + 1 else q.max_queue_size,
          enqueue_counter := (q.enqueue_counter + 1) % 4294967296 }, true) ∧
      Inv m' { q with
          size := q.size + 1,
          max_queue_size :=
            if q.size + 1 > q.max_queue_size then q.size + 1 else q.max_queue_size,
          enqueue_counter := (q.enqueue_counter + 1) % 4294967296 }
        (ns ++ [m.nextA]) (vs ++ [absEnq m data length]) ∧
      (∀ b, b < m.nextA → m'.bufs b = m.bufs b) ∧ m.nextA ≤ m'.nextA := by
  obtain ⟨head_lt, tail_lt, ⟨hn, hhn, hhd, hhl, hhlk, hhnx⟩,
    ⟨tn, htn, htd, htl, htlk, htnx, htpv⟩, hchain, hnd, hsz, hbnd⟩ := inv
  have hchain_lt := chain_addrs_lt hchain
  have hbuf_lt := chain_bufAddrs_lt hchain
  have hh_notin : q.head ∉ q.tail :: ns := (List.nodup_cons.mp hnd).1
  have hht : q.head ≠ q.tail := fun hEq => hh_notin (by simp [hEq])
  have hh_ns : q.head ∉ ns := fun hmem => hh_notin (by simp [hmem])
  have ht_ns : q.tail ∉ ns := (List.nodup_cons.mp (List.nodup_cons.mp hnd).2).1
  have hns_nd : ns.Nodup := (List.nodup_cons.mp (List.nodup_cons.mp hnd).2).2
  -- Stage 1: node_create.
  obtain ⟨mc, d0, l0, hcreate, hmcnew, hmcOther, hmcBufs, hmcA, hmatch0⟩ :
      ∃ (mc : Mem) (d0 : Option Nat) (l0 : Nat),
        node_create m data length = (mc, m.nextA) ∧
        mc.nodes m.nextA =
          some { data := d0, length := l0, prev := none, next := none, locked := false } ∧
        (∀ x, x ≠ m.nextA → mc.nodes x = m.nodes x) ∧
        (∀ b, b < m.nextA → mc.bufs b = m.bufs b) ∧
        m.nextA + 1 ≤ mc.nextA ∧
        nodeMatches mc
          { data := d0, length := l0, prev := none, next := none, locked := false }
          (absEnq m data length) := by
    rcases data with _ | src
    · refine ⟨_, none, 0, rfl, by simp [Mem.allocNode], ?_, fun b _ => rfl,
        by simp [Mem.allocNode], ?_⟩
      · intro x hx
        simp [Mem.allocNode, writeAt_other _ _ _ hx]
      · simp [absEnq, nodeMatches]
    · by_cases hlen : 0 < length
      · refine ⟨{ nodes := writeAt m.nodes m.nextA
                      (some { data := some (m.nextA + 1), length := length, prev := none,
                              next := none, locked := false }),
                  bufs := writeAt m.bufs (m.nextA + 1)
                      (some (((m.bufs src).getD []).take length)),
                  nextA := m.nextA + 2 },
          some (m.nextA + 1), length, ?_, ?_, ?_, ?_, ?_, ?_⟩
        · simp only [node_create, if_pos hlen]
        · simp
        · intro x hx
          simp [writeAt_other _ _ _ hx]
        · intro b hb
          have hbne : b ≠ m.nextA + 1 := by omega
          simp [writeAt_other _ _ _ hbne]
        · simp
        · simp [absEnq, hlen, nodeMatches]
      · refine ⟨{ m with
                  nodes := writeAt m.nodes m.nextA
                      (some { data := none, length := 0, prev := none, next := none,
                              locked := false }),
                  nextA := m.nextA + 1 },
          none, 0, ?_, ?_, ?_, fun b _ => rfl, ?_, ?_⟩
        · simp only [node_create, if_neg hlen, Mem.allocNode]
        · simp
        · intro x hx
          simp [writeAt_other _ _ _ hx]
        · simp
        · simp [absEnq, hlen, nodeMatches]
  -- Stage 2: the fresh node is locked, and the public call reduces to the loop.
  have hA_lt : m.nextA < mc.nextA := hmcA
  have hlockEq : node_try_lock mc m.nextA =
      (mc.setNode m.nextA
        { data := d0, length := l0, prev := none, next := none, locked := true }, true) := by
    simp [node_try_lock, hmcnew]
  have henq : queue_enqueue (fuel + 1) m (some q) data length =
      (match queue_enqueue_loop m.nextA q.tail (fuel + 1)
        (mc.setNode m.nextA
          { data := d0, length := l0, prev := none, next := none, locked := true }) q with
      | none => none
      | some (m3, q3, b) => some (m3, some q3, b)) := by
    simp only [queue_enqueue, if_neg hvalid, hcreate, hlockEq]
    rw [if_pos trivial]
  -- Stage 3: facts about P = tail.prev.
  obtain ⟨pn, hpn, hpnx, hp_lt, hp_ne_tail, hp_cases⟩ :
      ∃ pn : Node, m.nodes (lastOf q.head ns) = some pn ∧
        pn.next = some q.tail ∧ lastOf q.head ns < m.nextA ∧
        lastOf q.head ns ≠ q.tail ∧
        ((ns = [] ∧ lastOf q.head ns = q.head) ∨
          (ns.getLast? = some (lastOf q.head ns) ∧ lastOf q.head ns ∈ ns)) := by
    cases hnsc : ns with
    | nil =>
      rw [hnsc] at hhnx
      exact ⟨hn, hhn, by simpa [headOf] using hhnx, head_lt, hht, Or.inl ⟨rfl, rfl⟩⟩
    | cons a0 ns' =>
      have hne : a0 :: ns' ≠ [] := by simp
      have hgl0 := List.getLast?_eq_getLast_of_ne_nil hne
      have hgld : (a0 :: ns').getLastD q.head = (a0 :: ns').getLast hne := by
        rw [List.getLastD_eq_getLast?, hgl0]
        rfl
      have hgl : (a0 :: ns').getLast? = some ((a0 :: ns').getLastD q.head) := by
        rw [hgld]
        exact hgl0
      rw [hnsc] at hchain hchain_lt ht_ns
      obtain ⟨pn, hpn, hpnx⟩ := chain_last hchain hgl
      have hmem : (a0 :: ns').getLastD q.head ∈ a0 :: ns' := by
        rw [hgld]
        exact List.getLast_mem hne
      exact ⟨pn, by simpa [lastOf] using hpn, hpnx,
        hchain_lt _ hmem, fun hEq => ht_ns (hEq ▸ hmem), Or.inr ⟨hgl, hmem⟩⟩
  -- Stage 4: run the loop.
  have htail_ne_new : q.tail ≠ m.nextA := Nat.ne_of_lt tail_lt
  have hp_ne_new : lastOf q.head ns ≠ m.nextA := Nat.ne_of_lt hp_lt
  have hm2tail :
      (mc.setNode m.nextA
        { data := d0, length := l0, prev := none, next := none, locked := true }).nodes
        q.tail = some tn := by
    rw [setNode_nodes_other _ _ _ htail_ne_new, hmcOther _ htail_ne_new]
    exact htn
  have hm1Lp :
      ((mc.setNode m.nextA
        { data := d0, length := l0, prev := none, next := none, locked := true }).modifyNode
          m.nextA
          (fun n => { n with next := some q.tail, prev := some (lastOf q.head ns) })).nodes
        (lastOf q.head ns) = some pn := by
    rw [modifyNode_nodes_other _ _ hp_ne_new, setNode_nodes_other _ _ _ hp_ne_new,
      hmcOther _ hp_ne_new]
    exact hpn
  have hloop := queue_enqueue_loop_succ (q := q) fuel hm2tail htpv hm1Lp hpnx
  rw [hloop] at henq
  simp only [] at henq
  -- Stage 5: name the intermediate heaps and compute the relevant lookups.
  set m2base := mc.setNode m.nextA
    { data := d0, length := l0, prev := none, next := none, locked := true } with hm2b
  set m1L := m2base.modifyNode m.nextA
    (fun n => { n with next := some q.tail, prev := some (lastOf q.head ns) }) with hm1L
  set m2L := m1L.setNode (lastOf q.head ns) { pn with next := some m.nextA } with hm2L
  set m3L := m2L.modifyNode q.tail (fun n => { n with prev := some m.nextA }) with hm3L
  set m4L := m3L.modifyNode m.nextA (fun n => { n with locked := false }) with hm4L
  have hnew_ne_p : m.nextA ≠ lastOf q.head ns := (Nat.ne_of_lt hp_lt).symm
  have hnew_ne_tail2 : m.nextA ≠ q.tail := (Nat.ne_of_lt tail_lt).symm
  have htail_ne_p : q.tail ≠ lastOf q.head ns := (Ne.symm hp_ne_tail)
  have G1 : m2base.nodes m.nextA =
      some { data := d0, length := l0, prev := none, next := none, locked := true } := by
    rw [hm2b]
    exact setNode_nodes_same _ _ _
  have G2 : m1L.nodes m.nextA =
      some { data := d0, length := l0, prev := some (lastOf q.head ns),
             next := some q.tail, locked := true } := by
    rw [hm1L, modifyNode_nodes_same G1]
  have G3 : m3L.nodes m.nextA =
      some { data := d0, length := l0, prev := some (lastOf q.head ns),
             next := some q.tail, locked := true } := by
    rw [hm3L, modifyNode_nodes_other _ _ hnew_ne_tail2, hm2L,
      setNode_nodes_other _ _ _ hnew_ne_p]
    exact G2
  have F4 : m4L.nodes m.nextA =
      some { data := d0, length := l0, prev := some (lastOf q.head ns),
             next := some q.tail, locked := false } := by
    rw [hm4L, modifyNode_nodes_same G3]
  have F3 : m4L.nodes (lastOf q.head ns) = some { pn with next := some m.nextA } := by
    rw [hm4L, modifyNode_nodes_other _ _ hp_ne_new.symm.symm, hm3L]
    rw [modifyNode_nodes_other _ _ hp_ne_tail.symm.symm]
    rw [hm2L]
    exact setNode_nodes_same _ _ _
  have F2 : m4L.nodes q.tail = some { tn with prev := some m.nextA } := by
    have h2L : m2L.nodes q.tail = some tn := by
      rw [hm2L, setNode_nodes_other _ _ _ htail_ne_p, hm1L,
        modifyNode_nodes_other _ _ htail_ne_new, hm2b,
        setNode_nodes_other _ _ _ htail_ne_new, hmcOther _ htail_ne_new]
      exact htn
    rw [hm4L, modifyNode_nodes_other _ _ htail_ne_new, hm3L,
      modifyNode_nodes_same h2L]
  have F1 : ∀ x, x ≠ m.nextA → x ≠ lastOf q.head ns → x ≠ q.tail →
      m4L.nodes x = m.nodes x := by
    intro x h1 h2 h3
    rw [hm4L, modifyNode_nodes_other _ _ h1, hm3L, modifyNode_nodes_other _ _ h3,
      hm2L, setNode_nodes_other _ _ _ h2, hm1L, modifyNode_nodes_other _ _ h1,
      hm2b, setNode_nodes_other _ _ _ h1]
    exact hmcOther _ h1
  have F5 : m4L.bufs = mc.bufs := by
    rw [hm4L, hm3L, hm2L, hm1L, hm2b]
    simp
  have F6 : m4L.nextA = mc.nextA := by
    rw [hm4L, hm3L, hm2L, hm1L, hm2b]
    simp
  have hbufsF : ∀ b, b < m.nextA → m4L.bufs b = m.bufs b := by
    intro b hb
    rw [F5]
    exact hmcBufs b hb
  have hAF : m.nextA ≤ m4L.nextA := by
    rw [F6]
    exact le_of_lt hA_lt
  have hnewltF : m.nextA < m4L.nextA := by
    rw [F6]
    exact hA_lt
  -- Stage 6: re-establish the invariant.
  refine ⟨m4L, henq, ⟨?_, ?_, ?_, ?_, ?_, ?_, ?_, ?_⟩, hbufsF, hAF⟩
  · exact lt_of_lt_of_le head_lt hAF
  · exact lt_of_lt_of_le tail_lt hAF
  · -- head sentinel
    rcases hp_cases with ⟨hnsnil, hphead⟩ | ⟨hgl, hpmem⟩
    · subst hnsnil
      have hpn' : pn = hn := by
        have := hpn
        rw [show lastOf q.head ([] : List Nat) = q.head from rfl, hhn] at this
        exact (Option.some.inj this).symm
      refine ⟨{ pn with next := some m.nextA }, ?_, ?_, ?_, ?_, ?_⟩
      · rw [show (q.head : Nat) = lastOf q.head ([] : List Nat) from rfl]
        exact F3
      · rw [hpn', hhd]
      · rw [hpn']
        exact hhl
      · rw [hpn']
        exact hhlk
      · rfl
    · have hns_ne : ns ≠ [] := List.ne_nil_of_mem hpmem
      have hhp : q.head ≠ lastOf q.head ns := fun hEq => hh_ns (hEq ▸ hpmem)
      refine ⟨hn, ?_, hhd, hhl, hhlk, ?_⟩
      · rw [F1 q.head (Nat.ne_of_lt head_lt) hhp hht]
        exact hhn
      · rw [hhnx, headOf_append_of_ne_nil _ _ hns_ne]
  · -- tail sentinel
    refine ⟨{ tn with prev := some m.nextA }, F2, htd, htl, htlk, htnx, ?_⟩
    rw [lastOf_append]
  · -- chain
    exact chain_snoc F4 rfl rfl
      (nodeMatches_ext F5 F6 (nodeMatches_congr rfl rfl hmatch0))
      hbufsF hAF hnewltF
      (fun n h => by
        rw [hpn] at h
        rw [← Option.some.inj h]
        exact F3)
      hchain hns_nd
      (fun hne => by
        rcases hp_cases with ⟨hnsnil, _⟩ | ⟨hgl, _⟩
        · exact absurd hnsnil hne
        · exact hgl)
      (fun a ha hap => by
        have ha_lt := hchain_lt a ha
        have hat : a ≠ q.tail := fun hEq => ht_ns (hEq ▸ ha)
        rw [nodeView, nodeView, F1 a (Nat.ne_of_lt ha_lt) hap hat])
  · -- distinctness
    have hnotin : m.nextA ∉ q.head :: q.tail :: ns := by
      intro hmem
      rcases List.mem_cons.mp hmem with hEq | hmem2
      · exact absurd hEq.symm (Nat.ne_of_lt head_lt)
      rcases List.mem_cons.mp hmem2 with hEq | hmem3
      · exact absurd hEq.symm (Nat.ne_of_lt tail_lt)
      · exact absurd (hchain_lt _ hmem3) (by simp)
    exact nodup_append_singleton hnd hnotin
  · -- size
    simp [hsz]
  · -- bufAddrs distinctness
    rw [bufAddrs_append]
    match habs : absEnq m data length with
    | (none, l) =>
      simpa [bufAddrs] using hbnd
    | (some (b, bs), l) =>
      have hb := absEnq_buf habs
      have hnotin : b ∉ bufAddrs vs := by
        intro hmem
        have := hbuf_lt b hmem
        omega
      simpa [bufAddrs] using nodup_append_singleton hbnd hnotin

theorem nodeView_eq_of_nodes_eq {m m' : Mem} {x : Nat} (h : m'.nodes x = m.nodes x) :
    nodeView m' x = nodeView m x := by
  simp [nodeView, h]

theorem nodeView_modifyNode_prev (m : Mem) (y : Nat) (z : Option Nat) (x : Nat) :
    nodeView (m.modifyNode y (fun n => { n with prev := z })) x = nodeView m x := by
  by_cases hxy : x = y
  · subst hxy
    cases h : m.nodes x with
    | none => simp [nodeView, Mem.modifyNode, h]
    | some n => simp [nodeView, modifyNode_nodes_same h, h]
  · exact nodeView_eq_of_nodes_eq (modifyNode_nodes_other _ _ hxy)

theorem lastOf_cons_of_ne_nil {ns : List Nat} (h0 a : Nat) (h : ns ≠ []) :
    lastOf h0 (a :: ns) = lastOf h0 ns := by
  simp only [lastOf, List.getLastD_cons]
  rw [List.getLastD_eq_getLast?, List.getLastD_eq_getLast?,
    List.getLast?_eq_getLast_of_ne_nil h]
  rfl

theorem bufAddrs_cons (v : AbsVal) (vs : List AbsVal) :
    bufAddrs (v :: vs) =
      (match v.1 with
       | none => bufAddrs vs
       | some p => p.1 :: bufAddrs vs) := by
  match v with
  | (none, l) => simp [bufAddrs]
  | (some p, l) => simp [bufAddrs]

/-- A dequeue that observes the empty queue (head.next is the tail sentinel)
returns false and changes nothing at all. -/
theorem dequeue_empty_obs {m : Mem} {q : Queue} {hn : Node} (fuel : Nat)
    (h1 : m.nodes q.head = some hn) (h2 : hn.next = some q.tail) :
    queue_dequeue (fuel + 1) m (some q) true true = some (m, some q, false, none) := by
  have hl := queue_dequeue_loop_empty (q := q) fuel h1 h2
  simp only [queue_dequeue, hl]
  simp

/-- A successful dequeue from a quiescent state with a non-empty chain: the
call returns true with the front value's buffer address and length, the
front node leaves the chain, size is decremented and dequeue_counter
incremented, and no payload buffer is touched. -/
theorem dequeue_step {m : Mem} {q : Queue} {a : Nat} {ns : List Nat} {v : AbsVal}
    {vs : List AbsVal} (inv : Inv m q (a :: ns) (v :: vs)) (fuel : Nat) :
    ∃ m' : Mem,
      queue_dequeue (fuel + 1) m (some q) true true =
        some (m', some { q with
          size := q.size - 1,
          dequeue_counter := (q.dequeue_counter + 1) % 4294967296 }, true,
          some (v.1.map Prod.fst, v.2)) ∧
      Inv m' { q with size := q.size - 1, dequeue_counter := (q.dequeue_counter + 1) % 4294967296 } ns vs ∧
      readOut m' (v.1.map Prod.fst, v.2) = absBytes v ∧
      m'.bufs = m.bufs ∧ m'.nextA = m.nextA := by
  obtain ⟨head_lt, tail_lt, ⟨hn, hhn, hhd, hhl, hhlk, hhnx⟩,
    ⟨tn, htn, htd, htl, htlk, htnx, htpv⟩, hchain, hnd, hsz, hbnd⟩ := inv
  obtain ⟨⟨fn0, hfn0, hfn0lk, hmatch, hfnx, ha_lt⟩, hrest⟩ := hchain
  have hh_notin : q.head ∉ q.tail :: a :: ns := (List.nodup_cons.mp hnd).1
  have hht : q.head ≠ q.tail := fun hEq => hh_notin (by simp [hEq])
  have hh_a : q.head ≠ a := fun hEq => hh_notin (by simp [hEq])
  have hh_ns : q.head ∉ ns := fun hmem => hh_notin (by simp [hmem])
  have ht_notin : q.tail ∉ a :: ns := (List.nodup_cons.mp (List.nodup_cons.mp hnd).2).1
  have ha_t : a ≠ q.tail := fun hEq => ht_notin (by simp [hEq])
  have ht_ns : q.tail ∉ ns := fun hmem => ht_notin (by simp [hmem])
  have ha_notin : a ∉ ns := (List.nodup_cons.mp
    (List.nodup_cons.mp (List.nodup_cons.mp hnd).2).2).1
  have hhnx' : hn.next = some a := by simpa [headOf] using hhnx
  have hout_data : fn0.data = v.1.map Prod.fst := by
    match v, hmatch with
    | (none, l), ⟨h1, _, _⟩ => simpa using h1
    | (some (b, bs), l), ⟨h1, _, _, _, _⟩ => simpa using h1
  have hout_len : fn0.length = v.2 := by
    match v, hmatch with
    | (none, l), ⟨_, h2, _⟩ => exact h2
    | (some (b, bs), l), ⟨_, _, h3, _, _⟩ => exact h3
  have hloop := queue_dequeue_loop_succ (q := q) fuel hhn hhnx' ha_t hfn0 hfn0lk hh_a
  have hdq : queue_dequeue (fuel + 1) m (some q) true true =
      (match queue_dequeue_loop q.head q.tail (fuel + 1) m q with
      | none => none
      | some (m1, q1, r) =>
        match r with
        | none => some (m1, some q1, false, none)
        | some out => some (m1, some q1, true, some out)) := by
    simp only [queue_dequeue]
    simp
  rw [hloop] at hdq
  simp only [] at hdq
  -- name the intermediate heaps
  set mS2 := (m.setNode a { fn0 with locked := true }).setNode q.head
    { hn with next := fn0.next } with hmS2
  set mS3 := (match fn0.next with
    | some x =>
      if x ≠ q.tail then mS2.modifyNode x (fun n => { n with prev := some q.head })
      else mS2.modifyNode q.tail (fun n => { n with prev := some q.head })
    | none => mS2) with hmS3
  set mS5 := (node_unlock mS3 a).freeNode a with hmS5
  have hS3view : ∀ x, nodeView mS3 x = nodeView mS2 x := by
    intro x
    rw [hmS3]
    simp only [hfnx]
    by_cases hc : headOf ns q.tail ≠ q.tail
    · rw [if_pos hc]
      exact nodeView_modifyNode_prev _ _ _ _
    · rw [if_neg hc]
      exact nodeView_modifyNode_prev _ _ _ _
  have hS3nodes_of_ne : ∀ x, x ≠ headOf ns q.tail → x ≠ q.tail →
      mS3.nodes x = mS2.nodes x := by
    intro x h1 h2
    rw [hmS3]
    simp only [hfnx]
    by_cases hc : headOf ns q.tail ≠ q.tail
    · rw [if_pos hc]
      exact modifyNode_nodes_other _ _ h1
    · rw [if_neg hc]
      exact modifyNode_nodes_other _ _ h2
  have hview : ∀ x ∈ ns, nodeView mS5 x = nodeView m x := by
    intro x hx
    have hxa : x ≠ a := fun hEq => ha_notin (hEq ▸ hx)
    have hxh : x ≠ q.head := fun hEq => hh_ns (hEq ▸ hx)
    have e1 : mS5.nodes x = mS3.nodes x := by
      rw [hmS5, freeNode_nodes_other _ _ hxa, node_unlock, modifyNode_nodes_other _ _ hxa]
    calc nodeView mS5 x = nodeView mS3 x := nodeView_eq_of_nodes_eq e1
      _ = nodeView mS2 x := hS3view x
      _ = nodeView m x := by
          refine nodeView_eq_of_nodes_eq ?_
          rw [hmS2, setNode_nodes_other _ _ _ hxh, setNode_nodes_other _ _ _ hxa]
  have hbufs5 : mS5.bufs = m.bufs := by
    rw [hmS5, hmS3, hmS2]
    cases fn0.next with
    | none => simp [node_unlock]
    | some x =>
      by_cases hc : x ≠ q.tail
      · simp [hc, node_unlock]
      · simp [hc, node_unlock]
  have hnextA5 : mS5.nextA = m.nextA := by
    rw [hmS5, hmS3, hmS2]
    cases fn0.next with
    | none => simp [node_unlock]
    | some x =>
      by_cases hc : x ≠ q.tail
      · simp [hc, node_unlock]
      · simp [hc, node_unlock]
  have hhead5 : mS5.nodes q.head = some { hn with next := fn0.next } := by
    have e2 : mS2.nodes q.head = some { hn with next := fn0.next } :=
      setNode_nodes_same _ _ _
    have e3 : mS3.nodes q.head = some { hn with next := fn0.next } := by
      rw [hS3nodes_of_ne q.head ?hne hht]
      · exact e2
      case hne =>
        cases hnsc : ns with
        | nil => simpa [hnsc, headOf] using hht
        | cons b ns2 =>
          simp only [hnsc, headOf, List.headD]
          intro hEq
          exact hh_ns (by rw [hnsc, hEq]; simp)
    rw [hmS5, freeNode_nodes_other _ _ hh_a, node_unlock, modifyNode_nodes_other _ _ hh_a]
    exact e3
  refine ⟨mS5, ?_, ?_, ?_, hbufs5, hnextA5⟩
  · rw [hdq, hout_data, hout_len]
  · -- the invariant for the remaining chain
    refine ⟨by rw [hnextA5]; exact head_lt, by rw [hnextA5]; exact tail_lt,
      ⟨{ hn with next := fn0.next }, hhead5, hhd, hhl, hhlk, by simpa using hfnx⟩,
      ?_, ?_, ?_, ?_, ?_⟩
    · -- tail sentinel
      cases hnsc : ns with
      | nil =>
        have htl5 : mS5.nodes q.tail = some { tn with prev := some q.head } := by
          have e2 : mS2.nodes q.tail = some tn := by
            rw [hmS2, setNode_nodes_other _ _ _ (Ne.symm hht),
              setNode_nodes_other _ _ _ (Ne.symm ha_t)]
            exact htn
          have e3 : mS3.nodes q.tail = some { tn with prev := some q.head } := by
            rw [hmS3]
            simp only [hfnx, hnsc, headOf, List.headD]
            rw [if_neg (by simp)]
            exact modifyNode_nodes_same e2 _
          rw [hmS5, freeNode_nodes_other _ _ (Ne.symm ha_t), node_unlock,
            modifyNode_nodes_other _ _ (Ne.symm ha_t)]
          exact e3
        exact ⟨{ tn with prev := some q.head }, htl5, htd, htl, htlk, htnx, rfl⟩
      | cons b ns2 =>
        have hbne : b ≠ q.tail := by
          intro hEq
          exact ht_ns (by rw [hnsc, ← hEq]; simp)
        have e2 : mS2.nodes q.tail = some tn := by
          rw [hmS2, setNode_nodes_other _ _ _ (Ne.symm hht),
            setNode_nodes_other _ _ _ (Ne.symm ha_t)]
          exact htn
        have e3 : mS3.nodes q.tail = some tn := by
          rw [hmS3]
          simp only [hfnx, hnsc, headOf, List.headD]
          rw [if_pos hbne]
          rw [modifyNode_nodes_other _ _ (Ne.symm hbne)]
          exact e2
        have htl5 : mS5.nodes q.tail = some tn := by
          rw [hmS5, freeNode_nodes_other _ _ (Ne.symm ha_t), node_unlock,
            modifyNode_nodes_other _ _ (Ne.symm ha_t)]
          exact e3
        refine ⟨tn, htl5, htd, htl, htlk, htnx, ?_⟩
        rw [htpv, ← hnsc, lastOf_cons_of_ne_nil _ _ (by rw [hnsc]; simp)]
    · -- chain
      refine chain_mono hrest hview ?_ ?_
      · intro b hb
        rw [hbufs5]
      · rw [hnextA5]
    · -- nodup
      have hsub : (q.head :: q.tail :: ns).Sublist (q.head :: q.tail :: a :: ns) := by
        refine List.Sublist.cons₂ _ (List.Sublist.cons₂ _ ?_)
        exact List.sublist_cons_self a ns
      exact hnd.sublist hsub
    · -- size
      show q.size - 1 = ns.length
      simp only [List.length_cons] at hsz
      omega
    · -- buffer addresses
      rw [bufAddrs_cons] at hbnd
      match hv1 : v.1 with
      | none => rw [hv1] at hbnd; exact hbnd
      | some p => rw [hv1] at hbnd; exact (List.nodup_cons.mp hbnd).2
  · -- the observed bytes are the abstract value
    match hv : v, hmatch with
    | (none, l), _ => simp [readOut, absBytes]
    | (some (b, bs), l), ⟨_, h2, _, _, _⟩ =>
      simp only [readOut, absBytes, Option.map_some']
      rw [hbufs5, h2]
      rfl

/-- The result of queue_init, spelled out: the sentinels live at the two
fresh addresses, are empty, unlocked and mutually linked, and all counters
are zero. -/
theorem queue_init_spec (m0 : Mem) :
    queue_init m0 = ((queue_init m0).1,
      { head := m0.nextA, tail := m0.nextA + 1, size := 0, max_queue_size := 0,
        enqueue_counter := 0, dequeue_counter := 0,
        enqueue_retries := 0, dequeue_retries := 0 }) ∧
    (queue_init m0).1.nodes m0.nextA =
      some { data := none, length := 0, prev := none,
             next := some (m0.nextA + 1), locked := false } ∧
    (queue_init m0).1.nodes (m0.nextA + 1) =
      some { data := none, length := 0,
             prev := some m0.nextA, next := none, locked := false } ∧
    (queue_init m0).1.bufs = m0.bufs ∧ (queue_init m0).1.nextA = m0.nextA + 2 := by
  have h01 : ¬(m0.nextA = m0.nextA + 1) := by omega
  have h10 : ¬(m0.nextA + 1 = m0.nextA) := by omega
  refine ⟨?_, ?_, ?_, ?_, ?_⟩
  · simp [queue_init, node_create, Mem.allocNode, Mem.modifyNode, Mem.setNode, writeAt]
  · simp [queue_init, node_create, Mem.allocNode, Mem.modifyNode, Mem.setNode, writeAt,
      h01, h10]
  · simp [queue_init, node_create, Mem.allocNode, Mem.modifyNode, Mem.setNode, writeAt,
      h01, h10]
  · simp [queue_init, node_create, Mem.allocNode, Mem.modifyNode, Mem.setNode, writeAt,
      h01, h10]
  · simp [queue_init, node_create, Mem.allocNode, Mem.modifyNode, Mem.setNode, writeAt,
      h01, h10]

/-- A freshly initialised queue satisfies the invariant with an empty chain. -/
theorem queue_init_inv (m0 : Mem) : Inv (queue_init m0).1 (queue_init m0).2 [] [] := by
  obtain ⟨hq, hnh, hnt, hbufs, hA⟩ := queue_init_spec m0
  have hq2 : (queue_init m0).2 =
      { head := m0.nextA, tail := m0.nextA + 1, size := 0, max_queue_size := 0,
        enqueue_counter := 0, dequeue_counter := 0,
        enqueue_retries := 0, dequeue_retries := 0 } := congrArg Prod.snd hq
  refine ⟨?_, ?_, ?_, ?_, trivial, ?_, ?_, by simp [bufAddrs]⟩
  · rw [hq2, hA]
    simp
  · rw [hq2, hA]
    simp
  · rw [hq2]
    exact ⟨_, hnh, rfl, rfl, rfl, rfl⟩
  · rw [hq2]
    exact ⟨_, hnt, rfl, rfl, rfl, rfl, rfl⟩
  · rw [hq2]
    simp
  · rw [hq2]
    rfl

/-- node_create always succeeds at the next fresh address, with an unlocked,
unlinked node realising the abstract value of the arguments. -/
theorem node_create_spec (m : Mem) (data : Option Nat) (length : Nat) :
    ∃ (mc : Mem) (d0 : Option Nat) (l0 : Nat),
      node_create m data length = (mc, m.nextA) ∧
      mc.nodes m.nextA =
        some { data := d0, length := l0, prev := none, next := none, locked := false } := by
  rcases data with _ | src
  · exact ⟨_, none, 0, rfl, by simp [Mem.allocNode]⟩
  · by_cases hlen : 0 < length
    · refine ⟨{ nodes := writeAt m.nodes m.nextA
                    (some { data := some (m.nextA + 1), length := length, prev := none,
                            next := none, locked := false }),
                bufs := writeAt m.bufs (m.nextA + 1)
                    (some (((m.bufs src).getD []).take length)),
                nextA := m.nextA + 2 },
        some (m.nextA + 1), length, ?_, ?_⟩
      · simp only [node_create, if_pos hlen]
      · simp
    · refine ⟨{ m with
                nodes := writeAt m.nodes m.nextA
                    (some { data := none, length := 0, prev := none, next := none,
                            locked := false }),
                nextA := m.nextA + 1 },
        none, 0, ?_, ?_⟩
      · simp only [node_create, if_neg hlen, Mem.allocNode]
      · simp

/-- With fuel 0 a (valid) enqueue has no modelled result. -/
theorem enqueue_fuel0 {m : Mem} {q : Queue} {data : Option Nat} {length : Nat}
    (hvalid : ¬(data = none ∧ 0 < length)) :
    queue_enqueue 0 m (some q) data length = none := by
  obtain ⟨mc, d0, l0, hcreate, hmcnew⟩ := node_create_spec m data length
  have hlockEq : node_try_lock mc m.nextA =
      (mc.setNode m.nextA
        { data := d0, length := l0, prev := none, next := none, locked := true }, true) := by
    simp [node_try_lock, hmcnew]
  simp only [queue_enqueue, if_neg hvalid, hcreate, hlockEq]
  rw [if_pos trivial]
  rfl

/-- With fuel 0 a dequeue with valid out-parameters has no modelled result. -/
theorem dequeue_fuel0 (m : Mem) (q : Queue) :
    queue_dequeue 0 m (some q) true true = none := by
  simp [queue_dequeue, queue_dequeue_loop]

/-- The enqueue retry loop never lowers the high-water mark. -/
theorem queue_enqueue_loop_max_mono :
    ∀ (fuel : Nat) (m : Mem) (q : Queue) (newA tailA : Nat) (m' : Mem) (q' : Queue)
      (b : Bool), queue_enqueue_loop newA tailA fuel m q = some (m', q', b) →
        q.max_queue_size ≤ q'.max_queue_size := by
  intro fuel
  induction fuel with
  | zero =>
    intro m q newA tailA m' q' b h
    simp [queue_enqueue_loop] at h
  | succ f ih =>
    intro m q newA tailA m' q' b h
    simp only [queue_enqueue_loop] at h
    split at h
    · exact absurd h (by simp)
    · split at h
      · exact absurd h (by simp)
      · split at h
        · exact absurd h (by simp)
        · split at h
          · obtain ⟨h1, h2, h3⟩ := by
              simpa using Option.some.inj h
            rw [← h2]
            show q.max_queue_size ≤
              if q.size + 1 > q.max_queue_size then q.size + 1 else q.max_queue_size
            by_cases hc : q.size + 1 > q.max_queue_size
            · rw [if_pos hc]
              omega
            · rw [if_neg hc]
          · have hrec := ih _ _ _ _ _ _ _ h
            exact hrec

/-- The dequeue retry loop never changes the high-water mark. -/
theorem queue_dequeue_loop_max_eq :
    ∀ (fuel : Nat) (m : Mem) (q : Queue) (headA tailA : Nat) (m' : Mem) (q' : Queue)
      (r : Option (Option Nat × Nat)),
      queue_dequeue_loop headA tailA fuel m q = some (m', q', r) →
        q'.max_queue_size = q.max_queue_size := by
  intro fuel
  induction fuel with
  | zero =>
    intro m q headA tailA m' q' r h
    simp [queue_dequeue_loop] at h
  | succ f ih =>
    intro m q headA tailA m' q' r h
    simp only [queue_dequeue_loop] at h
    split at h
    · exact absurd h (by simp)
    · split at h
      · obtain ⟨h1, h2, h3⟩ := by
          simpa using Option.some.inj h
        rw [← h2]
      · split at h
        · have hrec := ih _ _ _ _ _ _ _ h
          exact hrec
        · split at h
          · split at h
            · exact absurd h (by simp)
            · split at h
              · exact absurd h (by simp)
              · split at h
                · obtain ⟨h1, h2, h3⟩ := by
                    simpa using Option.some.inj h
                  rw [← h2]
                · have hrec := ih _ _ _ _ _ _ _ h
                  exact hrec
          · have hrec := ih _ _ _ _ _ _ _ h
            exact hrec

/-- queue_enqueue never lowers max_queue_size (for any state, any fuel). -/
theorem enqueue_max_mono {fuel : Nat} {m : Mem} {q : Queue} {data : Option Nat}
    {length : Nat} {m' : Mem} {q' : Queue} {b : Bool}
    (h : queue_enqueue fuel m (some q) data length = some (m', some q', b)) :
    q.max_queue_size ≤ q'.max_queue_size := by
  simp only [queue_enqueue] at h
  split at h
  · obtain ⟨h1, h2, h3⟩ := by
      simpa using Option.some.inj h
    rw [← h2]
  · split at h
    · split at h
      · exact absurd h (by simp)
      · rename_i heq
        obtain ⟨h1, h2, h3⟩ := by
          simpa using Option.some.inj h
        rw [← h2]
        exact queue_enqueue_loop_max_mono _ _ _ _ _ _ _ _ heq
    · obtain ⟨h1, h2, h3⟩ := by
        simpa using Option.some.inj h
      rw [← h2]

/-- queue_dequeue never changes max_queue_size (for any state, any fuel). -/
theorem dequeue_max_eq {fuel : Nat} {m : Mem} {q : Queue} {dOk lOk : Bool}
    {m' : Mem} {q' : Queue} {b : Bool} {out : Option (Option Nat × Nat)}
    (h : queue_dequeue fuel m (some q) dOk lOk = some (m', some q', b, out)) :
    q'.max_queue_size = q.max_queue_size := by
  simp only [queue_dequeue] at h
  split at h
  · obtain ⟨h1, h2, h3, h4⟩ := by
      simpa using Option.some.inj h
    rw [← h2]
  · split at h
    · exact absurd h (by simp)
    · rename_i heq
      split at h
      · obtain ⟨h1, h2, h3, h4⟩ := by
          simpa using Option.some.inj h
        rw [← h2]
        exact queue_dequeue_loop_max_eq _ _ _ _ _ _ _ _ heq
      · obtain ⟨h1, h2, h3, h4⟩ := by
          simpa using Option.some.inj h
        rw [← h2]
        exact queue_dequeue_loop_max_eq _ _ _ _ _ _ _ _ heq

/-- Every reachable quiescent state satisfies the structural invariant, the
conservation equation enq_ok = (deq_ok + size) mod 2^32 (the counters are
32-bit and wrap), the word bound on deq_ok, and size ≤ max_size. -/
theorem reach_inv : ∀ {m : Mem} {q : Queue}, Reach m q →
    ∃ ns vs, Inv m q ns vs ∧
      q.enqueue_counter = (q.dequeue_counter + q.size) % 4294967296 ∧
      q.dequeue_counter < 4294967296 ∧
      q.size ≤ q.max_queue_size := by
  intro m q h
  induction h with
  | init m0 =>
    obtain ⟨hq, _⟩ := queue_init_spec m0
    have hq2 := congrArg Prod.snd hq
    refine ⟨[], [], queue_init_inv m0, ?_, ?_, ?_⟩
    · rw [hq2]
      rfl
    · rw [hq2]
      norm_num
    · rw [hq2]
  | @alloc m1 q1 bs hr ih =>
    obtain ⟨ns, vs, hInv, hc, hd, hm⟩ := ih
    exact ⟨ns, vs, Inv_allocBuf hInv bs, hc, hd, hm⟩
  | @enq m1 q1 fuel data length m2 q2 b hr heq ih =>
    obtain ⟨ns, vs, hInv, hc, hd, hm⟩ := ih
    by_cases hvalid : data = none ∧ 0 < length
    · have hnoop : queue_enqueue fuel m1 (some q1) data length = some (m1, some q1, false) := by
        simp only [queue_enqueue, if_pos hvalid]
      rw [hnoop] at heq
      obtain ⟨h1, h2, h3⟩ := by
        simpa using Option.some.inj heq
      exact ⟨ns, vs, h1 ▸ h2 ▸ hInv, h2 ▸ hc, h2 ▸ hd, h2 ▸ hm⟩
    · cases fuel with
      | zero =>
        rw [enqueue_fuel0 hvalid] at heq
        exact absurd heq (by simp)
      | succ f =>
        obtain ⟨mE, heq2, hInv2, _, _⟩ := enqueue_step hInv data length hvalid f
        rw [heq2] at heq
        obtain ⟨h1, h2, h3⟩ := by
          simpa using Option.some.inj heq
        refine ⟨_, _, h1 ▸ h2 ▸ hInv2, ?_, ?_, ?_⟩
        · rw [← h2]
          show (q1.enqueue_counter + 1) % 4294967296 =
            (q1.dequeue_counter + (q1.size + 1)) % 4294967296
          omega
        · rw [← h2]
          show q1.dequeue_counter < 4294967296
          exact hd
        · rw [← h2]
          show q1.size + 1 ≤
            if q1.size + 1 > q1.max_queue_size then q1.size + 1 else q1.max_queue_size
          by_cases hcm : q1.size + 1 > q1.max_queue_size
          · rw [if_pos hcm]
          · rw [if_neg hcm]
            omega
  | @deq m1 q1 fuel dOk lOk m2 q2 b out hr heq ih =>
    obtain ⟨ns, vs, hInv, hc, hd, hm⟩ := ih
    by_cases houts : dOk = false ∨ lOk = false
    · have hnoop : queue_dequeue fuel m1 (some q1) dOk lOk =
          some (m1, some q1, false, none) := by
        simp only [queue_dequeue, if_pos houts]
      rw [hnoop] at heq
      obtain ⟨h1, h2, h3, h4⟩ := by
        simpa using Option.some.inj heq
      exact ⟨ns, vs, h1 ▸ h2 ▸ hInv, h2 ▸ hc, h2 ▸ hd, h2 ▸ hm⟩
    · have hdOk : dOk = true := by
        cases dOk
        · exact absurd (Or.inl rfl) houts
        · rfl
      have hlOk : lOk = true := by
        cases lOk
        · exact absurd (Or.inr rfl) houts
        · rfl
      subst hdOk hlOk
      cases hns : ns with
      | nil =>
        cases hvs : vs with
        | cons v vs2 =>
          rw [hns, hvs] at hInv
          exact absurd hInv.chain_ok (by simp [chain])
        | nil =>
          rw [hns, hvs] at hInv
          obtain ⟨hn, hhn, _, _, _, hhnx⟩ := hInv.head_node
          have hhnx2 : hn.next = some q1.tail := by simpa [headOf] using hhnx
          cases fuel with
          | zero =>
            rw [dequeue_fuel0] at heq
            exact absurd heq (by simp)
          | succ f =>
            rw [dequeue_empty_obs f hhn hhnx2] at heq
            obtain ⟨h1, h2, h3, h4⟩ := by
              simpa using Option.some.inj heq
            exact ⟨[], [], h1 ▸ h2 ▸ hInv, h2 ▸ hc, h2 ▸ hd, h2 ▸ hm⟩
      | cons a ns2 =>
        cases hvs : vs with
        | nil =>
          rw [hns, hvs] at hInv
          exact absurd hInv.chain_ok (by simp [chain])
        | cons v vs2 =>
          rw [hns, hvs] at hInv
          have hsz1 : q1.size = ns2.length + 1 := by
            have := hInv.size_eq
            simpa using this
          cases fuel with
          | zero =>
            rw [dequeue_fuel0] at heq
            exact absurd heq (by simp)
          | succ f =>
            obtain ⟨mD, heq2, hInv2, _, _⟩ := dequeue_step hInv f
            rw [heq2] at heq
            obtain ⟨h1, h2, h3, h4⟩ := by
              simpa using Option.some.inj heq
            refine ⟨_, _, h1 ▸ h2 ▸ hInv2, ?_, ?_, ?_⟩
            · rw [← h2]
              show q1.enqueue_counter =
                ((q1.dequeue_counter + 1) % 4294967296 + (q1.size - 1)) % 4294967296
              omega
            · rw [← h2]
              show (q1.dequeue_counter + 1) % 4294967296 < 4294967296
              omega
            · rw [← h2]
              show q1.size - 1 ≤ q1.max_queue_size
              omega

theorem absBytes_absEnq {m : Mem} {src : Nat} {w : List Nat} (h : m.bufs src = some w) :
    absBytes (absEnq m (some src) w.length) = (w, w.length) := by
  by_cases hl : 0 < w.length
  · simp [absEnq, hl, absBytes, h]
  · have hw : w = [] := by
      cases w with
      | nil => rfl
      | cons x xs => simp at hl
    subst hw
    simp [absEnq, absBytes]

theorem bufAddrs_absEnq (m : Mem) (data : Option Nat) (length : Nat) :
    bufAddrs [absEnq m data length] = [] ∨
      bufAddrs [absEnq m data length] = [m.nextA + 1] := by
  rcases data with _ | src
  · left
    simp [absEnq, bufAddrs]
  · by_cases hl : 0 < length
    · right
      simp [absEnq, hl, bufAddrs]
    · left
      simp [absEnq, hl, bufAddrs]

/-- Running a sequence of enqueues from a quiescent state: every enqueue
returns true and the chain gains abstract values whose observed bytes are
exactly the enqueued payloads, in order. -/
theorem runEnqs_spec : ∀ (ws : List (List Nat)) {m : Mem} {q : Queue} {ns : List Nat}
    {vs : List AbsVal}, Inv m q ns vs →
    ∃ m' q' ns' vs', runEnqs 1 m q ws = some (m', q') ∧ Inv m' q' ns' (vs ++ vs') ∧
      vs'.map absBytes = ws.map (fun w => (w, w.length)) := by
  intro ws
  induction ws with
  | nil =>
    intro m q ns vs hInv
    exact ⟨m, q, ns, [], rfl, by simpa using hInv, rfl⟩
  | cons w ws ih =>
    intro m q ns vs hInv
    have hInvA : Inv (m.allocBuf w).1 q ns vs := Inv_allocBuf hInv w
    have hvalid : ¬((some (m.allocBuf w).2 : Option Nat) = none ∧ 0 < w.length) := by
      simp
    obtain ⟨m1, heq1, hInv1, _, _⟩ := enqueue_step hInvA (some (m.allocBuf w).2) w.length
      hvalid 0
    simp only [Nat.zero_add] at heq1
    obtain ⟨m2, q2, ns2, vs2, hrun, hInv2, hmap⟩ := ih hInv1
    refine ⟨m2, q2, ns2, absEnq (m.allocBuf w).1 (some (m.allocBuf w).2) w.length :: vs2,
      ?_, ?_, ?_⟩
    · simp only [runEnqs, heq1]
      exact hrun
    · simpa using hInv2
    · have hbytes : absBytes (absEnq (m.allocBuf w).1 (some (m.allocBuf w).2) w.length) =
          (w, w.length) := absBytes_absEnq (allocBuf_bufs_same m w)
      simp only [List.map_cons, hmap, hbytes]

/-- Running as many dequeues as there are values in the chain: every dequeue
returns true, the observations are exactly the abstract values' bytes in
order, and the queue ends empty. -/
theorem runDeqs_spec : ∀ {vs : List AbsVal} {ns : List Nat} {m : Mem} {q : Queue},
    Inv m q ns vs →
    ∃ m' q', runDeqs 1 vs.length m q = some (m', q', vs.map absBytes) ∧
      Inv m' q' [] [] := by
  intro vs
  induction vs with
  | nil =>
    intro ns m q hInv
    cases ns with
    | nil => exact ⟨m, q, rfl, hInv⟩
    | cons a ns2 => exact absurd hInv.chain_ok (by simp [chain])
  | cons v vs ih =>
    intro ns m q hInv
    cases ns with
    | nil => exact absurd hInv.chain_ok (by simp [chain])
    | cons a ns2 =>
      obtain ⟨m1, heq1, hInv1, hread, _, _⟩ := dequeue_step hInv 0
      simp only [Nat.zero_add] at heq1
      obtain ⟨m2, q2, hrun, hInv2⟩ := ih hInv1
      refine ⟨m2, q2, ?_, hInv2⟩
      simp only [List.length_cons, runDeqs, heq1, hrun, hread, List.map_cons]

theorem mem_bufAddrs_absEnq {m : Mem} {data : Option Nat} {length b : Nat}
    (h : b ∈ bufAddrs [absEnq m data length]) : b = m.nextA + 1 := by
  rcases bufAddrs_absEnq m data length with he | he
  · rw [he] at h
    simp at h
  · rw [he] at h
    simpa using h

/-- C3: After enqueueing payloads B then C (each via a caller-owned buffer),
overwriting the caller's B buffer, dequeueing (which must observe B's bytes
and length), overwriting the returned buffer, and dequeueing again, the
second dequeue still observes C's bytes and length: the queue stores
independently owned deep copies. -/
theorem C3_roundtrip_deep_copy (B C B2 D2 : List Nat) (m : Mem) (q : Queue)
    (hInv : Inv m q [] []) :
    roundTripRun m q B C B2 D2 = some ((B, B.length), (C, C.length)) := by
  have hInvA : Inv (m.allocBuf B).1 q [] [] := Inv_allocBuf hInv B
  obtain ⟨m1, heq1, hInv1, hbufs1, hA1⟩ :=
    enqueue_step hInvA (some (m.allocBuf B).2) B.length (by simp) 0
  simp only [Nat.zero_add] at heq1
  simp only [List.nil_append] at hInv1
  simp only [allocBuf_nextA] at hA1
  by_cases hBl : 0 < B.length
  · -- B is non-empty: its copy lives at a fresh buffer address
    have hv1 : absEnq (m.allocBuf B).1 (some (m.allocBuf B).2) B.length =
        (some ((m.allocBuf B).1.nextA + 1, B), B.length) := by
      have hsame : (m.allocBuf B).1.bufs m.nextA = some B := allocBuf_bufs_same m B
      simp [absEnq, hBl, hsame]
    rw [hv1] at hInv1
    have hInvC : Inv ((m1.allocBuf C).1) _ _ _ := Inv_allocBuf hInv1 C
    obtain ⟨m2, heq2, hInv2, hbufs2, hA2⟩ :=
      enqueue_step hInvC (some (m1.allocBuf C).2) C.length (by simp) 0
    simp only [Nat.zero_add] at heq2
    simp only [List.cons_append, List.nil_append] at hInv2
    have hnotin1 : (m.allocBuf B).2 ∉
        bufAddrs [(some ((m.allocBuf B).1.nextA + 1, B), B.length),
          absEnq (m1.allocBuf C).1 (some (m1.allocBuf C).2) C.length] := by
      intro hmem
      rw [show ([(some ((m.allocBuf B).1.nextA + 1, B), B.length),
            absEnq (m1.allocBuf C).1 (some (m1.allocBuf C).2) C.length] : List AbsVal) =
          [(some ((m.allocBuf B).1.nextA + 1, B), B.length)] ++
          [absEnq (m1.allocBuf C).1 (some (m1.allocBuf C).2) C.length] from rfl,
        bufAddrs_append] at hmem
      rcases List.mem_append.mp hmem with h1 | h2
      · simp only [bufAddrs, List.filterMap, Option.map_some', allocBuf_addr,
          allocBuf_nextA] at h1
        simp only [List.mem_singleton] at h1
        omega
      · have h3 := mem_bufAddrs_absEnq h2
        simp only [allocBuf_addr, allocBuf_nextA] at h3
        omega
    have hInv2b := Inv_writeBuf hInv2 hnotin1 B2
    obtain ⟨m3, heq3, hInv3, hread3, hbufs3, hA3⟩ := dequeue_step hInv2b 0
    simp only [Nat.zero_add] at heq3
    have habs1 : absBytes ((some ((m.allocBuf B).1.nextA + 1, B), B.length) : AbsVal) =
        (B, B.length) := rfl
    -- the returned buffer is distinct from C's stored copy
    have hnotin2 : (m.allocBuf B).1.nextA + 1 ∉
        bufAddrs [absEnq (m1.allocBuf C).1 (some (m1.allocBuf C).2) C.length] := by
      intro hmem
      have h3 := mem_bufAddrs_absEnq hmem
      simp only [allocBuf_nextA] at h3 ⊢
      omega
    have hInv3b := Inv_writeBuf hInv3 hnotin2 D2
    obtain ⟨m4, heq4, hInv4, hread4, hbufs4, hA4⟩ := dequeue_step hInv3b 0
    simp only [Nat.zero_add] at heq4
    have habs2 : absBytes (absEnq (m1.allocBuf C).1 (some (m1.allocBuf C).2) C.length) =
        (C, C.length) := absBytes_absEnq (allocBuf_bufs_same m1 C)
    simp only [roundTripRun, heq1, heq2, heq3]
    simp only [Option.map_some']
    simp only [heq4]
    simp only [Option.map_some', absBytes] at hread3
    rw [hread3, hread4, habs2]
  · -- B is empty (length 0): the stored node carries a NULL payload
    have hB : B = [] := by
      cases B with
      | nil => rfl
      | cons x xs => simp at hBl
    have hv1 : absEnq (m.allocBuf B).1 (some (m.allocBuf B).2) B.length =
        ((none : Option (Nat × List Nat)), 0) := by
      simp [absEnq, hBl]
    rw [hv1] at hInv1
    have hInvC : Inv ((m1.allocBuf C).1) _ _ _ := Inv_allocBuf hInv1 C
    obtain ⟨m2, heq2, hInv2, hbufs2, hA2⟩ :=
      enqueue_step hInvC (some (m1.allocBuf C).2) C.length (by simp) 0
    simp only [Nat.zero_add] at heq2
    simp only [List.cons_append, List.nil_append] at hInv2
    have hnotin1 : (m.allocBuf B).2 ∉
        bufAddrs [((none : Option (Nat × List Nat)), 0),
          absEnq (m1.allocBuf C).1 (some (m1.allocBuf C).2) C.length] := by
      intro hmem
      rw [bufAddrs_cons] at hmem
      have h3 := mem_bufAddrs_absEnq hmem
      simp only [allocBuf_addr, allocBuf_nextA] at h3
      omega
    have hInv2b := Inv_writeBuf hInv2 hnotin1 B2
    obtain ⟨m3, heq3, hInv3, hread3, hbufs3, hA3⟩ := dequeue_step hInv2b 0
    simp only [Nat.zero_add] at heq3
    obtain ⟨m4, heq4, hInv4, hread4, hbufs4, hA4⟩ := dequeue_step hInv3 0
    simp only [Nat.zero_add] at heq4
    have habs2 : absBytes (absEnq (m1.allocBuf C).1 (some (m1.allocBuf C).2) C.length) =
        (C, C.length) := absBytes_absEnq (allocBuf_bufs_same m1 C)
    simp only [roundTripRun, heq1, heq2, heq3]
    simp only [Option.map_none']
    simp only [heq4]
    simp only [Option.map_none', absBytes] at hread3
    rw [hread3, hread4, habs2, hB]
    rfl

/-- C3 witness at a concrete instance. -/
theorem C3_roundtrip_deep_copy_witness :
    roundTripRun (queue_init Mem.empty).1 (queue_init Mem.empty).2 [1, 2] [3] [9, 9] [7] =
      some (([1, 2], 2), ([3], 1)) :=
  C3_roundtrip_deep_copy [1, 2] [3] [9, 9] [7] _ _ (queue_init_inv Mem.empty)

/-- C4: a producer enqueueing payloads v1..vn on an empty queue followed by
n dequeues observes exactly v1..vn in order (with their lengths), and the
(n+1)-th dequeue returns false. -/
theorem C4_fifo_order (ws : List (List Nat)) (m : Mem) (q : Queue)
    (hInv : Inv m q [] []) :
    fifoRun m q ws = some (ws.map (fun w => (w, w.length)), false) := by
  obtain ⟨m1, q1, ns1, vs1, hrun, hInv1, hmap⟩ := runEnqs_spec ws hInv
  rw [List.nil_append] at hInv1
  have hlen : vs1.length = ws.length := by
    have hl := congrArg List.length hmap
    simpa using hl
  obtain ⟨m2, q2, hdeqs, hInv2⟩ := runDeqs_spec hInv1
  rw [hlen, hmap] at hdeqs
  obtain ⟨hn, hhn, _, _, _, hhnx⟩ := hInv2.head_node
  have hhnx2 : hn.next = some q2.tail := by simpa [headOf] using hhnx
  have hfinal := dequeue_empty_obs (m := m2) (q := q2) 0 hhn hhnx2
  simp only [Nat.zero_add] at hfinal
  simp only [fifoRun, hrun, hdeqs, hfinal]

/-- C4 witness at a concrete instance. -/
theorem C4_fifo_order_witness :
    fifoRun (queue_init Mem.empty).1 (queue_init Mem.empty).2 [[10], [20], [30]] =
      some ([([10], 1), ([20], 1), ([30], 1)], false) :=
  C4_fifo_order [[10], [20], [30]] _ _ (queue_init_inv Mem.empty)

theorem enqN_spec (n : Nat) :
    Reach (enqN n).1 (enqN n).2 ∧
    (∃ ns vs, Inv (enqN n).1 (enqN n).2 ns vs) ∧
    (enqN n).2.enqueue_counter = n % 4294967296 ∧
    (enqN n).2.dequeue_counter = 0 ∧
    (enqN n).2.size = n := by
  induction n with
  | zero =>
    exact ⟨Reach.init Mem.empty, ⟨[], [], queue_init_inv Mem.empty⟩, rfl, rfl, rfl⟩
  | succ k ih =>
    obtain ⟨hR, ⟨ns, vs, hInv⟩, hE, hD, hS⟩ := ih
    obtain ⟨mN, heq, hInv2, _, _⟩ := enqueue_step hInv none 0 (by simp) 0
    rw [Nat.zero_add] at heq
    have hstep : enqN (k + 1) =
        (mN, { (enqN k).2 with
          size := (enqN k).2.size + 1,
          max_queue_size :=
            if (enqN k).2.size + 1 > (enqN k).2.max_queue_size then (enqN k).2.size + 1
            else (enqN k).2.max_queue_size,
          enqueue_counter := ((enqN k).2.enqueue_counter + 1) % 4294967296 }) := by
      show (match queue_enqueue 1 (enqN k).1 (some (enqN k).2) none 0 with
        | some (mN, some qN, _) => (mN, qN)
        | _ => enqN k) = _
      rw [heq]
    rw [hstep]
    refine ⟨?_, ?_, ?_, ?_, ?_⟩
    · exact Reach.enq 1 none 0 hR heq
    · exact ⟨ns ++ [(enqN k).1.nextA], vs ++ [absEnq (enqN k).1 none 0], hInv2⟩
    · show ((enqN k).2.enqueue_counter + 1) % 4294967296 = (k + 1) % 4294967296
      rw [hE]
      omega
    · show (enqN k).2.dequeue_counter = 0
      exact hD
    · show (enqN k).2.size + 1 = k + 1
      rw [hS]

/-- C5 counterexample: the state reached by 2^32 successful enqueues from a
freshly initialised queue is reachable and quiescent, yet its 32-bit
successful-enqueue counter has wrapped back to 0 while its size_t size is
2^32, so enq_ok - deq_ok (which is 0 - 0 = 0 under every reading of the
subtraction) differs from size. -/
theorem C5_counter_identity_cex :
    Reach (enqN 4294967296).1 (enqN 4294967296).2 ∧
    (enqN 4294967296).2.enqueue_counter - (enqN 4294967296).2.dequeue_counter ≠
      (enqN 4294967296).2.size := by
  obtain ⟨hR, _, hE, hD, hS⟩ := enqN_spec 4294967296
  refine ⟨hR, ?_⟩
  rw [hE, hD, hS]
  omega

/-- C5 (amended): enq_ok and deq_ok are 32-bit counters that wrap, so the
conservation law holds modulo 2^32: in every reachable quiescent state the
32-bit unsigned difference enq_ok - deq_ok equals size mod 2^32 (each
successful enqueue bumps size and enq_ok mod 2^32 once, each successful
dequeue decrements size and bumps deq_ok mod 2^32 once), and it equals size
exactly whenever fewer than 2^32 items are simultaneously live. -/
theorem C5_counter_conservation_mod {m : Mem} {q : Queue} (h : Reach m q) :
    (q.enqueue_counter + 4294967296 - q.dequeue_counter) % 4294967296 =
      q.size % 4294967296 ∧
    (q.size < 4294967296 →
      (q.enqueue_counter + 4294967296 - q.dequeue_counter) % 4294967296 = q.size) := by
  obtain ⟨ns, vs, _, hc, hd, _⟩ := reach_inv h
  constructor
  · omega
  · intro hs
    omega

/-- C5 amended witness at a concrete reachable state. -/
theorem C5_counter_conservation_mod_witness :
    ((queue_init Mem.empty).2.enqueue_counter + 4294967296 -
        (queue_init Mem.empty).2.dequeue_counter) % 4294967296 =
      (queue_init Mem.empty).2.size % 4294967296 ∧
    ((queue_init Mem.empty).2.size < 4294967296 →
      ((queue_init Mem.empty).2.enqueue_counter + 4294967296 -
          (queue_init Mem.empty).2.dequeue_counter) % 4294967296 =
        (queue_init Mem.empty).2.size) :=
  C5_counter_conservation_mod (Reach.init Mem.empty)

/-- C6: in every reachable quiescent state max_queue_size dominates size,
and neither a queue_enqueue nor a queue_dequeue call (from any state, with
any fuel and arguments) ever lowers max_queue_size; queue_is_empty,
queue_size and queue_max_size take the state as read-only input and return
scalars, so they cannot change it at all. -/
theorem C6_max_size_monotone {m : Mem} {q : Queue} (h : Reach m q) :
    q.size ≤ q.max_queue_size ∧
    (∀ (fuel : Nat) (data : Option Nat) (length : Nat) (m' : Mem) (q' : Queue) (b : Bool),
      queue_enqueue fuel m (some q) data length = some (m', some q', b) →
        q.max_queue_size ≤ q'.max_queue_size) ∧
    (∀ (fuel : Nat) (dOk lOk : Bool) (m' : Mem) (q' : Queue) (b : Bool)
      (out : Option (Option Nat × Nat)),
      queue_dequeue fuel m (some q) dOk lOk = some (m', some q', b, out) →
        q.max_queue_size ≤ q'.max_queue_size) := by
  obtain ⟨ns, vs, _, _, _, hm⟩ := reach_inv h
  refine ⟨hm, ?_, ?_⟩
  · intro fuel data length m' q' b h2
    exact enqueue_max_mono h2
  · intro fuel dOk lOk m' q' b out h2
    exact le_of_eq (dequeue_max_eq h2).symm

/-- C6 witness at a concrete reachable state. -/
theorem C6_max_size_monotone_witness :
    (queue_init Mem.empty).2.size ≤ (queue_init Mem.empty).2.max_queue_size ∧
    (∀ (fuel : Nat) (data : Option Nat) (length : Nat) (m' : Mem) (q' : Queue) (b : Bool),
      queue_enqueue fuel (queue_init Mem.empty).1 (some (queue_init Mem.empty).2)
          data length = some (m', some q', b) →
        (queue_init Mem.empty).2.max_queue_size ≤ q'.max_queue_size) ∧
    (∀ (fuel : Nat) (dOk lOk : Bool) (m' : Mem) (q' : Queue) (b : Bool)
      (out : Option (Option Nat × Nat)),
      queue_dequeue fuel (queue_init Mem.empty).1 (some (queue_init Mem.empty).2)
          dOk lOk = some (m', some q', b, out) →
        (queue_init Mem.empty).2.max_queue_size ≤ q'.max_queue_size) :=
  C6_max_size_monotone (Reach.init Mem.empty)

/-- C7: a dequeue that observes the empty queue (head.next is the tail
sentinel) returns false, writes neither out-parameter (the output component
is none), and returns the heap and the queue — counters included —
literally unchanged; since the state is unchanged, repeating the dequeue
gives the same result every time. -/
theorem C7_empty_dequeue_noop {m : Mem} {q : Queue} {hn : Node} (fuel : Nat)
    (h1 : m.nodes q.head = some hn) (h2 : hn.next = some q.tail) :
    queue_dequeue (fuel + 1) m (some q) true true = some (m, some q, false, none) :=
  dequeue_empty_obs fuel h1 h2

/-- C7 witness at a concrete empty queue. -/
theorem C7_empty_dequeue_noop_witness :
    queue_dequeue 1 (queue_init Mem.empty).1 (some (queue_init Mem.empty).2) true true =
      some ((queue_init Mem.empty).1, some (queue_init Mem.empty).2, false, none) :=
  C7_empty_dequeue_noop 0 rfl rfl

/-- C8: enqueue with data == NULL and length == 0 returns true and appends a
node whose abstract value is (NULL, 0); whenever such a node is at the front
of the queue, the dequeue that removes it succeeds and writes
*out_data = NULL and *out_length = 0. -/
theorem C8_enqueue_null_zero {m : Mem} {q : Queue} {ns : List Nat} {vs : List AbsVal}
    (hInv : Inv m q ns vs) (fuel : Nat) :
    (∃ m' q', queue_enqueue (fuel + 1) m (some q) none 0 = some (m', some q', true) ∧
      Inv m' q' (ns ++ [m.nextA]) (vs ++ [((none : Option (Nat × List Nat)), 0)])) ∧
    (∀ (m2 : Mem) (q2 : Queue) (a : Nat) (ns2 : List Nat) (vs2 : List AbsVal),
      Inv m2 q2 (a :: ns2) (((none : Option (Nat × List Nat)), 0) :: vs2) →
      ∃ m3 q3, queue_dequeue (fuel + 1) m2 (some q2) true true =
        some (m3, some q3, true, some ((none : Option Nat), 0))) := by
  constructor
  · obtain ⟨m', heq, hInv', _, _⟩ := enqueue_step hInv none 0 (by simp) fuel
    exact ⟨m', _, heq, hInv'⟩
  · intro m2 q2 a ns2 vs2 hInv2
    obtain ⟨m3, heq3, _, _, _, _⟩ := dequeue_step hInv2 fuel
    exact ⟨m3, _, heq3⟩

/-- C8 witness at a concrete instance. -/
theorem C8_enqueue_null_zero_witness :
    (∃ m' q', queue_enqueue 1 (queue_init Mem.empty).1 (some (queue_init Mem.empty).2)
        none 0 = some (m', some q', true) ∧
      Inv m' q' ([] ++ [(queue_init Mem.empty).1.nextA])
        ([] ++ [((none : Option (Nat × List Nat)), 0)])) ∧
    (∀ (m2 : Mem) (q2 : Queue) (a : Nat) (ns2 : List Nat) (vs2 : List AbsVal),
      Inv m2 q2 (a :: ns2) (((none : Option (Nat × List Nat)), 0) :: vs2) →
      ∃ m3 q3, queue_dequeue 1 m2 (some q2) true true =
        some (m3, some q3, true, some ((none : Option Nat), 0))) :=
  C8_enqueue_null_zero (queue_init_inv Mem.empty) 0

/-- C10: enqueue with a non-NULL data pointer but length == 0 returns true
yet copies nothing: the node stores a NULL payload of length 0, so the
dequeue that removes it writes *out_data = NULL and *out_length = 0 even
though the enqueuer passed non-NULL data. -/
theorem C10_zero_length_nonnull_data (a : Nat) {m : Mem} {q : Queue} {ns : List Nat}
    {vs : List AbsVal} (hInv : Inv m q ns vs) (fuel : Nat) :
    (∃ m' q', queue_enqueue (fuel + 1) m (some q) (some a) 0 = some (m', some q', true) ∧
      Inv m' q' (ns ++ [m.nextA]) (vs ++ [((none : Option (Nat × List Nat)), 0)])) ∧
    (∀ (m2 : Mem) (q2 : Queue) (x : Nat) (ns2 : List Nat) (vs2 : List AbsVal),
      Inv m2 q2 (x :: ns2) (((none : Option (Nat × List Nat)), 0) :: vs2) →
      ∃ m3 q3, queue_dequeue (fuel + 1) m2 (some q2) true true =
        some (m3, some q3, true, some ((none : Option Nat), 0))) := by
  constructor
  · obtain ⟨m', heq, hInv', _, _⟩ := enqueue_step hInv (some a) 0 (by simp) fuel
    have habs : absEnq m (some a) 0 = ((none : Option (Nat × List Nat)), 0) := by
      simp [absEnq]
    rw [habs] at hInv'
    exact ⟨m', _, heq, hInv'⟩
  · intro m2 q2 x ns2 vs2 hInv2
    obtain ⟨m3, heq3, _, _, _, _⟩ := dequeue_step hInv2 fuel
    exact ⟨m3, _, heq3⟩

/-- C10 witness at a concrete instance (non-NULL data pointer 7). -/
theorem C10_zero_length_nonnull_data_witness :
    (∃ m' q', queue_enqueue 1 (queue_init Mem.empty).1 (some (queue_init Mem.empty).2)
        (some 7) 0 = some (m', some q', true) ∧
      Inv m' q' ([] ++ [(queue_init Mem.empty).1.nextA])
        ([] ++ [((none : Option (Nat × List Nat)), 0)])) ∧
    (∀ (m2 : Mem) (q2 : Queue) (x : Nat) (ns2 : List Nat) (vs2 : List AbsVal),
      Inv m2 q2 (x :: ns2) (((none : Option (Nat × List Nat)), 0) :: vs2) →
      ∃ m3 q3, queue_dequeue 1 m2 (some q2) true true =
        some (m3, some q3, true, some ((none : Option Nat), 0))) :=
  C10_zero_length_nonnull_data 7 (queue_init_inv Mem.empty) 0

/-- C1 (code-bug evidence): destroying a queue that holds one 1-byte payload
frees every node cell (the payload node 3 and both sentinels 0 and 1) but
leaks the queue's internal copy of the payload at buffer address 4: the
dequeue inside queue_destroy hands the buffer to queue_destroy, which
discards it without freeing, although its comment claims the data was
already freed. The caller's own source buffer (address 2) is of course
still live. -/
theorem C1_destroy_leaks_payload :
    destroyLeakResult.map
      (fun mF => (mF.bufs 4, mF.nodes 0, mF.nodes 1, mF.nodes 3, mF.bufs 2)) =
      some (some [42], none, none, none, some [42]) := by
  rfl

/-- C2 counterexample: queue_is_empty on a NULL queue returns true, not
false as the claim states. -/
theorem C2_is_empty_null_cex : queue_is_empty Mem.empty none = true := rfl

/-- C2 (amended): every operation on a NULL queue, enqueue of NULL data with
positive length, and dequeue with a NULL out-parameter returns false (and
queue_size / queue_max_size return 0) leaving the heap and queue unchanged —
except queue_is_empty, which returns true on a NULL queue. -/
theorem C2_invalid_args_amended (m : Mem) (q : Queue) (fuel : Nat) (data : Option Nat)
    (length : Nat) (dOk lOk : Bool) (h : 0 < length) :
    queue_enqueue fuel m none data length = some (m, none, false) ∧
    queue_dequeue fuel m none dOk lOk = some (m, none, false, none) ∧
    queue_enqueue fuel m (some q) none length = some (m, some q, false) ∧
    queue_dequeue fuel m (some q) false lOk = some (m, some q, false, none) ∧
    queue_dequeue fuel m (some q) dOk false = some (m, some q, false, none) ∧
    queue_is_empty m none = true ∧
    queue_size none = 0 ∧ queue_max_size none = 0 := by
  refine ⟨rfl, rfl, ?_, ?_, ?_, rfl, rfl, rfl⟩
  · simp only [queue_enqueue]
    rw [if_pos ⟨trivial, h⟩]
  · simp only [queue_dequeue]
    rw [if_pos (Or.inl trivial)]
  · simp only [queue_dequeue]
    rw [if_pos (Or.inr trivial)]

/-- C2 witness at concrete arguments. -/
theorem C2_invalid_args_amended_witness :
    queue_enqueue 1 Mem.empty none (some 0) 4 = some (Mem.empty, none, false) ∧
    queue_dequeue 1 Mem.empty none true true = some (Mem.empty, none, false, none) ∧
    queue_enqueue 1 Mem.empty (some (queue_init Mem.empty).2) none 4 =
      some (Mem.empty, some (queue_init Mem.empty).2, false) ∧
    queue_dequeue 1 Mem.empty (some (queue_init Mem.empty).2) false true =
      some (Mem.empty, some (queue_init Mem.empty).2, false, none) ∧
    queue_dequeue 1 Mem.empty (some (queue_init Mem.empty).2) true false =
      some (Mem.empty, some (queue_init Mem.empty).2, false, none) ∧
    queue_is_empty Mem.empty none = true ∧
    queue_size none = 0 ∧ queue_max_size none = 0 :=
  C2_invalid_args_amended Mem.empty (queue_init Mem.empty).2 1 (some 0) 4 true true
    (by decide)

/-- C9 counterexample: src/thread_test.c does not accept the three
positional arguments with defaults 10, 100, 30 — it rejects a third
positional argument and its defaults are 5 and 50. -/
theorem C9_thread_test_args_cex :
    thread_test_parse ["2", "3", "4"] = TTParseResult.error ∧
    thread_test_parse [] = TTParseResult.run 5 50 := by
  constructor
  · decide
  · rfl

/-- C9 (amended): src/main.c accepts [num_threads] [items_per_thread]
[mutex_timeout_sec] with defaults 10, 100, 30; src/thread_test.c accepts
only [num_threads] [num_elements] with defaults 5, 50 and rejects a third
positional argument; both recognise ?, help, -h, --help as help requests
and report an error (non-zero exit) for non-positive counts or too many
arguments. -/
theorem C9_parse_args_amended (a b c d s bad : String)
    (hs : isHelpArg s = true) (hbad1 : isHelpArg bad = false) (hbad2 : atoi bad ≤ 0)
    (ha0 : isHelpArg a = false)
    (ha : 0 < atoi a) (hb : 0 < atoi b) (hc : 0 < atoi c) :
    main_parse [] = ParseResult.run 10 100 30 ∧
    thread_test_parse [] = TTParseResult.run 5 50 ∧
    main_parse [s] = ParseResult.help ∧
    thread_test_parse [s] = TTParseResult.help ∧
    main_parse [a] = ParseResult.run (atoi a) 100 30 ∧
    main_parse [a, b] = ParseResult.run (atoi a) (atoi b) 30 ∧
    main_parse [a, b, c] = ParseResult.run (atoi a) (atoi b) (atoi c) ∧
    main_parse [a, b, c, d] = ParseResult.error ∧
    thread_test_parse [a] = TTParseResult.run (atoi a) 50 ∧
    thread_test_parse [a, b] = TTParseResult.run (atoi a) (atoi b) ∧
    thread_test_parse [a, b, c] = TTParseResult.error ∧
    main_parse [bad] = ParseResult.error ∧
    thread_test_parse [bad] = TTParseResult.error := by
  have hna : ¬(atoi a ≤ 0) := not_le.mpr ha
  have hnb : ¬(atoi b ≤ 0) := not_le.mpr hb
  have hnc : ¬(atoi c ≤ 0) := not_le.mpr hc
  refine ⟨rfl, rfl, ?_, ?_, ?_, ?_, ?_, ?_, ?_, ?_, ?_, ?_, ?_⟩
  · simp [main_parse, hs]
  · simp [thread_test_parse, hs]
  · simp [main_parse, ha0, hna]
  · simp [main_parse, ha0, hna, hnb]
  · simp [main_parse, ha0, hna, hnb, hnc]
  · simp [main_parse, ha0, hna, hnb, hnc]
  · simp [thread_test_parse, ha0, hna]
  · simp [thread_test_parse, ha0, hna, hnb]
  · simp [thread_test_parse, ha0, hna, hnb]
  · simp [main_parse, hbad1, hbad2]
  · simp [thread_test_parse, hbad1, hbad2]

/-- C9 witness at concrete arguments. -/
theorem C9_parse_args_amended_witness :
    main_parse [] = ParseResult.run 10 100 30 ∧
    thread_test_parse [] = TTParseResult.run 5 50 ∧
    main_parse ["-h"] = ParseResult.help ∧
    thread_test_parse ["-h"] = TTParseResult.help ∧
    main_parse ["3"] = ParseResult.run (atoi "3") 100 30 ∧
    main_parse ["3", "4"] = ParseResult.run (atoi "3") (atoi "4") 30 ∧
    main_parse ["3", "4", "5"] = ParseResult.run (atoi "3") (atoi "4") (atoi "5") ∧
    main_parse ["3", "4", "5", "6"] = ParseResult.error ∧
    thread_test_parse ["3"] = TTParseResult.run (atoi "3") 50 ∧
    thread_test_parse ["3", "4"] = TTParseResult.run (atoi "3") (atoi "4") ∧
    thread_test_parse ["3", "4", "5"] = TTParseResult.error ∧
    main_parse ["0"] = ParseResult.error ∧
    thread_test_parse ["0"] = TTParseResult.error :=
  C9_parse_args_amended "3" "4" "5" "6" "-h" "0" (by decide) (by decide) (by decide)
    (by decide) (by decide) (by decide) (by decide)

end LocklessQueue
